import Mathlib

/-!
Verification of the kano backlog webview ingestion core.

The definitions below are a shallow embedding of
`src/cpp/systems/kano_backlog_webview_core/private/BacklogWebviewService.cpp`.
Filesystem paths are modelled as lists of components, the filesystem itself as
an explicit value (directories plus files with content, mtime, and the view the
JSON library would produce for manifest files), machine file times as
`Option Nat` with `none` playing the role of `file_time_type::min()`, and
`std::unordered_map` as an insertion-ordered association list (the source only
ever iterates maps whose iteration order is irrelevant to the stated claims, or
reads them pointwise).
-/

set_option autoImplicit false

namespace KanoBacklog

/-- Whitespace set used by the C++ helper `Trim` (" \t\r\n"). -/
def isWsChar (c : Char) : Bool :=
  c = ' ' || c = '\t' || c = '\r' || c = '\n'

/-- Embeds `Trim` (BacklogWebviewService.cpp, lines 17-24): drop leading and
trailing characters of " \t\r\n". -/
def Trim (s : String) : String :=
  String.mk (((s.data.dropWhile isWsChar).reverse.dropWhile isWsChar).reverse)

/-- Modelled from the spec: `text::ToLower` is provided by the
`KanoBacklogWebview.Strings` module, which is not among the analysed sources.
The spec describes every use of it as case-insensitive comparison of plain
ASCII tokens, so it is modelled as ASCII lowercasing. -/
def lowerChar (c : Char) : Char :=
  if 'A' ≤ c && c ≤ 'Z' then Char.ofNat (c.toNat + 32) else c

/-- Modelled from the spec: ASCII lowercasing, see `lowerChar`. -/
def ToLower (s : String) : String :=
  String.mk (s.data.map lowerChar)

/-- Embeds `Unquote` (lines 26-36): strip one layer of matching single or
double quotes from the trimmed value. -/
def Unquote (value : String) : String :=
  let trimmed := Trim value
  if trimmed.length ≥ 2 then
    let first := trimmed.data.headD ' '
    let last := trimmed.data.getLastD ' '
    if (first = '"' && last = '"') || (first = '\'' && last = '\'') then
      String.mk ((trimmed.data.drop 1).take (trimmed.data.length - 2))
    else trimmed
  else trimmed

/-- Embeds `NormalizeNullToken` (lines 38-44): values that lower to a null
token become the empty string. -/
def NormalizeNullToken (value : String) : String :=
  let lowered := ToLower (Trim value)
  if lowered == "null" || lowered == "none" || lowered == "~" then "" else value

/-- Split a character list at every occurrence of a separator character. -/
def splitOnChar (c : Char) : List Char → List (List Char)
  | [] => [[]]
  | x :: xs =>
    if x = c then [] :: splitOnChar c xs
    else
      match splitOnChar c xs with
      | [] => [[x]]
      | y :: ys => (x :: y) :: ys

/-- Embeds `SplitLines` (lines 46-54), with `std::getline` semantics: an empty
text yields no lines, and a trailing newline does not produce a final empty
line. -/
def SplitLines (text : String) : List String :=
  if text = "" then []
  else
    let parts := (splitOnChar '\n' text.data).map String.mk
    if text.data.getLastD ' ' = '\n' then parts.dropLast else parts

/-- Embeds `StartsWith` (lines 71-73). -/
def StartsWith (value p : String) : Bool :=
  p.data.isPrefixOf value.data

/-- Association-list lookup standing in for `std::unordered_map` reads. -/
def assocFind? {α : Type} (m : List (String × α)) (k : String) : Option α :=
  (m.find? (fun e => e.1 == k)).map (fun e => e.2)

/-- Association-list write standing in for `std::unordered_map` writes:
replace the entry for the key when present, append it otherwise. -/
def assocSet {α : Type} (m : List (String × α)) (k : String) (v : α) :
    List (String × α) :=
  match m with
  | [] => [(k, v)]
  | e :: rest => if e.1 == k then (k, v) :: rest else e :: assocSet rest k v

/-- Frontmatter map read, `map[key]` with the default-constructed string. -/
def fmGet (m : List (String × String)) (k : String) : String :=
  (assocFind? m k).getD ""

/-- Processing of one non-delimiter frontmatter line: the body of the loop in
`ParseFrontmatterMap` (lines 238-267) for a line that is not `---`.  Returns
the updated current key and map. -/
def fmLine (raw currentKey : String) (m : List (String × String)) :
    String × List (String × String) :=
  let trimmed := Trim raw
  if trimmed = "" then (currentKey, m)
  else
    let hasColon := raw.data.contains ':'
    let likelyKeyLine := hasColon && !raw.isEmpty &&
      !(raw.data.headD ' ' == ' ') && !(raw.data.headD ' ' == '\t')
    if likelyKeyLine then
      let key := Trim (String.mk (raw.data.takeWhile (fun c => c != ':')))
      let value := Trim (String.mk ((raw.data.dropWhile (fun c => c != ':')).drop 1))
      (key, assocSet m key (NormalizeNullToken (Unquote value)))
    else if !(currentKey == "") && (StartsWith raw "  -" || StartsWith raw "- ") then
      let itemValue := Trim raw
      let itemValue :=
        if StartsWith itemValue "- " then Trim (String.mk (itemValue.data.drop 2))
        else if StartsWith itemValue "-" then Trim (String.mk (itemValue.data.drop 1))
        else if StartsWith itemValue "  -" then Trim (String.mk (itemValue.data.drop 3))
        else itemValue
      if !(itemValue == "") then
        let prev := fmGet m currentKey
        let joined := (if !(prev == "") then prev ++ "," else prev) ++
          NormalizeNullToken (Unquote itemValue)
        (currentKey, assocSet m currentKey joined)
      else (currentKey, m)
    else (currentKey, m)

/-- The scanning loop of `ParseFrontmatterMap` (lines 229-268): stop with
success at the first line trimming to `---`, otherwise feed the line to
`fmLine`.  Returns the found-end flag and the accumulated map. -/
def fmLoop : List String → String → List (String × String) →
    Bool × List (String × String)
  | [], _, m => (false, m)
  | raw :: rest, currentKey, m =>
    if Trim raw = "---" then (true, m)
    else
      let s := fmLine raw currentKey m
      fmLoop rest s.1 s.2

/-- Result record for the frontmatter parser: the `ok` out-flag, the `error`
out-string and the returned map. -/
structure FMResult where
  ok : Bool
  error : String
  map : List (String × String)
  deriving Repr, DecidableEq

/-- Embeds `ParseFrontmatterMap` (lines 216-277). -/
def ParseFrontmatterMap (content : String) : FMResult :=
  match SplitLines content with
  | [] => ⟨false, "Missing frontmatter start marker", []⟩
  | first :: rest =>
    if Trim first ≠ "---" then ⟨false, "Missing frontmatter start marker", []⟩
    else
      let r := fmLoop rest "" []
      if !r.1 then ⟨false, "Missing frontmatter end marker", r.2⟩
      else ⟨true, "", r.2⟩

theorem fmLoop_fst (ls : List String) :
    ∀ key m, (fmLoop ls key m).1 = ls.any (fun l => Trim l == "---") := by
  induction ls with
  | nil => intro key m; rfl
  | cons raw rest ih =>
    intro key m
    simp only [fmLoop, List.any_cons]
    by_cases h : Trim raw = "---"
    · simp [h]
    · simp [h, ih]

/-- C8: the frontmatter parser fails exactly when the first line does not trim
to the opening delimiter or no later line trims to the closing delimiter. -/
theorem frontmatter_ok_iff (content : String) :
    (ParseFrontmatterMap content).ok = true ↔
      ∃ first rest, SplitLines content = first :: rest ∧ Trim first = "---" ∧
        ∃ l ∈ rest, Trim l = "---" := by
  have hok : (ParseFrontmatterMap content).ok =
      (match SplitLines content with
       | [] => false
       | first :: rest => (Trim first == "---") && rest.any (fun l => Trim l == "---")) := by
    unfold ParseFrontmatterMap
    cases SplitLines content with
    | nil => rfl
    | cons first rest =>
      by_cases h : Trim first = "---" <;>
        cases hb : (fmLoop rest "" []).1 <;>
          simp [h, hb, ← fmLoop_fst rest "" []]
  rw [hok]
  cases hsplit : SplitLines content with
  | nil => simp
  | cons first rest =>
    show ((Trim first == "---") && rest.any (fun l => Trim l == "---")) = true ↔ _
    constructor
    · intro hand
      rw [Bool.and_eq_true, beq_iff_eq, List.any_eq_true] at hand
      obtain ⟨h1, l, hl, hl2⟩ := hand
      exact ⟨first, rest, rfl, h1, l, hl, by simpa using hl2⟩
    · rintro ⟨f1, r1, heq, hf1, l, hl, hl2⟩
      injection heq with h1 h2
      subst h1; subst h2
      rw [Bool.and_eq_true, beq_iff_eq, List.any_eq_true]
      exact ⟨hf1, l, hl, by simpa using hl2⟩

/-! ## Paths and the filesystem model -/

/-- A filesystem path, as its list of components. -/
abbrev FsPath := List String

/-- Rendering with the generic separator, `path::generic_string`. -/
def joinPath (p : FsPath) : String := String.intercalate "/" p

/-- `path::filename()` as a string, for component-list paths. -/
def filenameOf (p : FsPath) : String := p.getLastD ""

/-- `path::parent_path()` for component-list paths. -/
def parentPath (p : FsPath) : FsPath := p.dropLast

/-- Position of the last dot of a filename, used for stem and extension. -/
def lastDotIdx (f : String) : Option Nat :=
  ((List.range f.length).filter (fun i => f.data.getD i ' ' = '.')).getLast?

/-- `path::extension()` of a filename: from the last dot on, except that a
lone leading dot yields no extension. -/
def extensionOf (f : String) : String :=
  if f = "." || f = ".." then ""
  else
    match lastDotIdx f with
    | none => ""
    | some 0 => ""
    | some i => String.mk (f.data.drop i)

/-- `path::stem()` of a filename: up to the last dot, with the same leading
dot exception. -/
def stemOf (f : String) : String :=
  if f = "." || f = ".." then f
  else
    match lastDotIdx f with
    | none => f
    | some 0 => f
    | some i => String.mk (f.data.take i)

/-- Strip a root from a path, modelling `std::filesystem::relative` in the
only case the service exercises: the path extends the root. -/
def stripRoot : FsPath → FsPath → FsPath
  | [], p => p
  | _, [] => []
  | r :: rs, x :: xs => if x = r then stripRoot rs xs else x :: xs

/-- One file of the modelled filesystem: its path, its text content, its last
write time, and the view the JSON library produces for it (`none` models a
JSON parse failure; irrelevant for non-manifest files). -/
structure FileEntry where
  path : FsPath
  content : String
  mtime : Nat
  json : Option (List (String × String)) := none
  deriving Repr, DecidableEq

/-- The modelled filesystem: existing directories and regular files. -/
structure FileSys where
  dirs : List FsPath
  files : List FileEntry
  deriving Repr, DecidableEq

def FileSys.isDirectory (fs : FileSys) (p : FsPath) : Bool :=
  fs.dirs.any (fun d => d == p)

def FileSys.fileAt (fs : FileSys) (p : FsPath) : Option FileEntry :=
  fs.files.find? (fun f => f.path == p)

/-- `std::filesystem::exists`: the path is a directory or a regular file. -/
def FileSys.pathExists (fs : FileSys) (p : FsPath) : Bool :=
  fs.isDirectory p || (fs.fileAt p).isSome

/-- Strict prefix test: `p` lies strictly below `root`. -/
def isUnder (root p : FsPath) : Bool :=
  root.isPrefixOf p && decide (root.length < p.length)

/-- The regular files below a root, in filesystem enumeration order: models
`recursive_directory_iterator` restricted to `is_regular_file` entries. -/
def FileSys.filesUnder (fs : FileSys) (root : FsPath) : List FileEntry :=
  fs.files.filter (fun f => isUnder root f.path)

/-- The immediate subdirectories of a root: models `directory_iterator`
restricted to `is_directory` entries. -/
def FileSys.subdirsOf (fs : FileSys) (root : FsPath) : List FsPath :=
  fs.dirs.filter (fun d => isUnder root d && d.length == root.length + 1)

/-! ## Record model and builders -/

/-- Embeds the `ItemRecord` struct of the public header. -/
structure ItemRecord where
  id : String := ""
  type : String := ""
  sourceKind : String := ""
  title : String := ""
  state : String := ""
  parent : String := ""
  created : String := ""
  updated : String := ""
  relativePath : String := ""
  rawContent : String := ""
  valid : Bool := false
  parseError : String := ""
  deriving Repr, DecidableEq

instance : Inhabited ItemRecord := ⟨{}⟩

/-- Embeds `IsMarkdownItemFile` (lines 168-170). -/
def IsMarkdownItemFile (p : FsPath) : Bool :=
  extensionOf (filenameOf p) == ".md"

/-- Embeds `ShouldSkipPath` (lines 172-189). -/
def ShouldSkipPath (p : FsPath) : Bool :=
  filenameOf p == "README.md" ||
  ".index.md".data.isSuffixOf (filenameOf p).data ||
  p.any (fun part => part == "_trash")

/-- Embeds `NormalizeTypeFromPath` (lines 191-214): a declared type wins,
otherwise the grandparent directory name selects the type. -/
def NormalizeTypeFromPath (itemPath : FsPath) (declaredType : String) : String :=
  if !(declaredType == "") then declaredType
  else
    let parent := filenameOf (parentPath (parentPath itemPath))
    if parent == "story" || parent == "userstory" then "UserStory"
    else if parent == "epic" then "Epic"
    else if parent == "feature" then "Feature"
    else if parent == "task" then "Task"
    else if parent == "bug" then "Bug"
    else "Unknown"

/-- Embeds `ParseItem` (lines 279-332). -/
def ParseItem (fs : FileSys) (itemPath productRoot : FsPath) : ItemRecord :=
  let base : ItemRecord :=
    { sourceKind := "Item", relativePath := joinPath (stripRoot productRoot itemPath) }
  match fs.fileAt itemPath with
  | none => { base with parseError := "Failed to open file" }
  | some f =>
    let base := { base with rawContent := f.content }
    let fm := ParseFrontmatterMap f.content
    if !fm.ok then { base with parseError := fm.error }
    else
      let m := fm.map
      let rec1 := { base with
        id := fmGet m "id"
        type := NormalizeTypeFromPath itemPath (fmGet m "type")
        title := fmGet m "title"
        state := fmGet m "state"
        parent := fmGet m "parent"
        created := fmGet m "created"
        updated := fmGet m "updated" }
      if rec1.id == "" then { rec1 with parseError := "Missing id" }
      else if ToLower rec1.id == "null" then { rec1 with parseError := "Invalid id" }
      else
        { rec1 with
          title := if rec1.title == "" then "(untitled)" else rec1.title
          state := if rec1.state == "" then "Proposed" else rec1.state
          valid := true }

/-- Embeds `ParseDecision` (lines 334-377). -/
def ParseDecision (fs : FileSys) (decisionPath productRoot : FsPath) : ItemRecord :=
  let base : ItemRecord :=
    { sourceKind := "Decision", type := "ADR"
      relativePath := joinPath (stripRoot productRoot decisionPath) }
  match fs.fileAt decisionPath with
  | none => { base with parseError := "Failed to open file" }
  | some f =>
    let base := { base with rawContent := f.content }
    let fm := ParseFrontmatterMap f.content
    if !fm.ok then { base with parseError := fm.error }
    else
      let m := fm.map
      let theId := fmGet m "id"
      let theId := if theId == "" then stemOf (filenameOf decisionPath) else theId
      let theTitle := fmGet m "title"
      let theTitle := if theTitle == "" then stemOf (filenameOf decisionPath) else theTitle
      let theState := fmGet m "status"
      let theState := if theState == "" then "Proposed" else theState
      { base with
        id := theId, title := theTitle, state := theState
        created := fmGet m "date", updated := fmGet m "date", valid := true }

/-- Manifest field read with default: `manifest.get(key, default).asString()`. -/
def jsonGetD (j : List (String × String)) (k d : String) : String :=
  match j.find? (fun e => e.1 == k) with
  | some e => e.2
  | none => d

/-- Embeds `ParseTopicManifest` (lines 404-441).  `ParseJsonFile` is realised
by the `json` view stored on the manifest file entry. -/
def ParseTopicManifest (fs : FileSys) (topicManifestPath backlogRoot : FsPath) :
    ItemRecord :=
  let base : ItemRecord :=
    { sourceKind := "Topic", type := "Topic"
      relativePath := joinPath (stripRoot backlogRoot topicManifestPath) }
  match fs.fileAt topicManifestPath with
  | none => { base with parseError := "Failed to open file" }
  | some f =>
    match f.json with
    | none => { base with parseError := "Malformed JSON" }
    | some manifest =>
      let slug := jsonGetD manifest "topic" (filenameOf (parentPath topicManifestPath))
      let briefPath := parentPath topicManifestPath ++ ["brief.md"]
      let rawC :=
        match fs.fileAt briefPath with
        | some bf => bf.content
        | none => f.content
      { base with
        id := "TOPIC-" ++ slug, title := slug
        state := jsonGetD manifest "status" "open"
        created := jsonGetD manifest "created_at" ""
        updated := jsonGetD manifest "updated_at" ""
        rawContent := rawC, valid := true }

/-- Embeds `ParseWorksetManifest` (lines 443-474). -/
def ParseWorksetManifest (fs : FileSys) (worksetManifestPath backlogRoot : FsPath) :
    ItemRecord :=
  let base : ItemRecord :=
    { sourceKind := "Workset", type := "Workset"
      relativePath := joinPath (stripRoot backlogRoot worksetManifestPath) }
  match fs.fileAt worksetManifestPath with
  | none => { base with parseError := "Failed to open file" }
  | some f =>
    match f.json with
    | none => { base with parseError := "Malformed JSON" }
    | some manifest =>
      let name := jsonGetD manifest "name" (filenameOf (parentPath worksetManifestPath))
      { base with
        id := "WORKSET-" ++ name, title := name
        state := jsonGetD manifest "status" "open"
        created := jsonGetD manifest "created_at" ""
        updated := jsonGetD manifest "updated_at" ""
        rawContent := f.content, valid := true }

/-! ## Product cache and cache manager -/

/-- File times: `none` models `file_time_type::min()`, the scan seed. -/
abbrev Mtime := Option Nat

/-- Comparison of file times, with the `min()` sentinel below every real
time. -/
def mtimeLt : Mtime → Mtime → Bool
  | none, none => false
  | none, some _ => true
  | some _, none => false
  | some a, some b => decide (a < b)

/-- Embeds the `ProductCache` struct of the header. -/
structure ProductCache where
  allItems : List ItemRecord := []
  idIndexes : List (String × List Nat) := []
  primaryById : List (String × Nat) := []
  latestMtime : Mtime := none
  warnings : List String := []
  deriving Repr, DecidableEq

/-- The service state: the active products root and the per-product cache
map. -/
structure ServiceState where
  productsRoot : FsPath
  cacheByProduct : List (String × ProductCache) := []
  deriving Repr, DecidableEq

/-- Embeds `IsValidProductName` (lines 84-87), the regex `^[A-Za-z0-9._-]+$`. -/
def isNameChar (c : Char) : Bool :=
  ('A' ≤ c && c ≤ 'Z') || ('a' ≤ c && c ≤ 'z') || ('0' ≤ c && c ≤ '9') ||
  c == '.' || c == '_' || c == '-'

def IsValidProductName (product : String) : Bool :=
  !product.isEmpty && product.data.all isNameChar

/-- Scan one root for the latest tracked mtime: the inner loop of
`ScanLatestMtime` (lines 128-150). -/
def scanRootLatest (fs : FileSys) (root : FsPath) (latest : Mtime) : Mtime :=
  if !fs.pathExists root then latest
  else
    (fs.filesUnder root).foldl
      (fun acc f =>
        let tracked := IsMarkdownItemFile f.path || filenameOf f.path == "manifest.json"
        if tracked && !ShouldSkipPath f.path then
          if mtimeLt acc (some f.mtime) then some f.mtime else acc
        else acc)
      latest

/-- Embeds `ScanLatestMtime` (lines 120-152). -/
def ScanLatestMtime (fs : FileSys) (productsRoot productRoot : FsPath) : Mtime :=
  let backlogRoot := parentPath productsRoot
  [productRoot ++ ["items"], productRoot ++ ["decisions"],
   backlogRoot ++ ["topics"], backlogRoot ++ ["worksets"]].foldl
    (fun latest root => scanRootLatest fs root latest) none

/-- Embeds `ShouldLoad` (lines 154-166). -/
def ShouldLoad (fs : FileSys) (st : ServiceState) (product : String)
    (forceRefresh : Bool) : Bool :=
  if forceRefresh then true
  else
    match assocFind? st.cacheByProduct product with
    | none => true
    | some cache =>
      mtimeLt cache.latestMtime
        (ScanLatestMtime fs st.productsRoot (st.productsRoot ++ [product]))

/-- Id indexing loop of `LoadProduct` (lines 609-614): every record with a
non-empty id is appended to `idIndexes[id]`; the counter mirrors the index
`i`. -/
def indexLoop (acc : List (String × List Nat)) (i : Nat) :
    List ItemRecord → List (String × List Nat)
  | [] => acc
  | item :: rest =>
    if item.id == "" then indexLoop acc (i + 1) rest
    else indexLoop (assocSet acc item.id ((assocFind? acc item.id).getD [] ++ [i]))
      (i + 1) rest

def computeIndexes (items : List ItemRecord) : List (String × List Nat) :=
  indexLoop [] 0 items

/-- Lexicographic character-list comparison, the order `std::string`
`operator<` implements. -/
def charListLt : List Char → List Char → Bool
  | [], [] => false
  | [], _ :: _ => true
  | _ :: _, [] => false
  | x :: xs, y :: ys =>
    if x < y then true
    else if y < x then false
    else charListLt xs ys

/-- Lexicographic string comparison by character values. -/
def strLt (a b : String) : Bool := charListLt a.data b.data

/-- Primary selection fold of `LoadProduct` (lines 620-630), exactly as the
C++ loop: two successive conditional replacements against the record the
primary pointed at when the iteration began. -/
def pickPrimary (items : List ItemRecord) (indexes : List Nat) : Nat :=
  indexes.foldl
    (fun primary index =>
      let candidate := items.getD index default
      let current := items.getD primary default
      let p1 := if strLt current.updated candidate.updated then index else primary
      if candidate.updated == current.updated &&
          strLt candidate.relativePath current.relativePath then index
      else p1)
    (indexes.headD 0)

/-- Primary map construction of `LoadProduct` (lines 616-632). -/
def primaryLoop (items : List ItemRecord) (acc : List (String × Nat)) :
    List (String × List Nat) → List (String × Nat)
  | [] => acc
  | e :: rest =>
    if e.2.isEmpty then primaryLoop items acc rest
    else primaryLoop items (assocSet acc e.1 (pickPrimary items e.2)) rest

def computePrimaries (items : List ItemRecord)
    (idIdx : List (String × List Nat)) : List (String × Nat) :=
  primaryLoop items [] idIdx

/-- Appending one parsed record and, when invalid, its warning: the shared
shape of the four collection loops in `LoadProduct`. -/
def recordStep (category : String) (acc : List ItemRecord × List String)
    (item : ItemRecord) : List ItemRecord × List String :=
  (acc.1 ++ [item],
   if item.valid then acc.2
   else acc.2 ++ ["Invalid " ++ category ++ ": " ++ item.relativePath ++ " - " ++
     item.parseError])

/-- The items loop of `LoadProduct` (lines 535-550). -/
def scanItemsStage (fs : FileSys) (productRoot : FsPath)
    (acc : List ItemRecord × List String) : List ItemRecord × List String :=
  ((fs.filesUnder (productRoot ++ ["items"])).filter
      (fun f => IsMarkdownItemFile f.path && !ShouldSkipPath f.path)).foldl
    (fun acc f => recordStep "item" acc (ParseItem fs f.path productRoot)) acc

/-- The decisions loop of `LoadProduct` (lines 552-568). -/
def scanDecisionsStage (fs : FileSys) (productRoot : FsPath)
    (acc : List ItemRecord × List String) : List ItemRecord × List String :=
  if fs.pathExists (productRoot ++ ["decisions"]) then
    ((fs.filesUnder (productRoot ++ ["decisions"])).filter
        (fun f => IsMarkdownItemFile f.path && !ShouldSkipPath f.path)).foldl
      (fun acc f => recordStep "decision" acc (ParseDecision fs f.path productRoot)) acc
  else acc

/-- The topics loop of `LoadProduct` (lines 570-588). -/
def scanTopicsStage (fs : FileSys) (backlogRoot : FsPath)
    (acc : List ItemRecord × List String) : List ItemRecord × List String :=
  if fs.pathExists (backlogRoot ++ ["topics"]) then
    (fs.subdirsOf (backlogRoot ++ ["topics"])).foldl
      (fun acc d =>
        if fs.pathExists (d ++ ["manifest.json"]) then
          recordStep "topic" acc (ParseTopicManifest fs (d ++ ["manifest.json"]) backlogRoot)
        else acc) acc
  else acc

/-- The worksets loop of `LoadProduct` (lines 590-607). -/
def scanWorksetsStage (fs : FileSys) (backlogRoot : FsPath)
    (acc : List ItemRecord × List String) : List ItemRecord × List String :=
  if fs.pathExists (backlogRoot ++ ["worksets"]) then
    (fs.subdirsOf (backlogRoot ++ ["worksets"])).foldl
      (fun acc d =>
        if fs.pathExists (d ++ ["manifest.json"]) then
          recordStep "workset" acc (ParseWorksetManifest fs (d ++ ["manifest.json"]) backlogRoot)
        else acc) acc
  else acc

/-- The cache rebuild: the body of `LoadProduct` (lines 524-634) after the
`ShouldLoad` gate, as the sequential composition of the four collection
loops followed by indexing and primary selection. -/
def RebuildCache (fs : FileSys) (productsRoot : FsPath) (product : String) :
    ProductCache :=
  let productRoot := productsRoot ++ [product]
  let itemsRoot := productRoot ++ ["items"]
  let latest := ScanLatestMtime fs productsRoot productRoot
  if !fs.pathExists itemsRoot then
    { latestMtime := latest, warnings := ["Missing items directory"] }
  else
    let backlogRoot := parentPath productsRoot
    let acc := scanWorksetsStage fs backlogRoot
      (scanTopicsStage fs backlogRoot
        (scanDecisionsStage fs productRoot
          (scanItemsStage fs productRoot ([], []))))
    let idIdx := computeIndexes acc.1
    { allItems := acc.1, idIndexes := idIdx
      primaryById := computePrimaries acc.1 idIdx
      latestMtime := latest, warnings := acc.2 }

/-- Embeds `LoadProduct` (lines 518-635). -/
def LoadProduct (fs : FileSys) (st : ServiceState) (product : String)
    (forceRefresh : Bool) : ServiceState :=
  if !ShouldLoad fs st product forceRefresh then st
  else
    { st with cacheByProduct :=
        assocSet st.cacheByProduct product (RebuildCache fs st.productsRoot product) }

/-! ## Responses and query operations -/

/-- The JSON object `ItemToJson` produces (lines 476-496), as a record. -/
structure ItemView where
  id : String := ""
  type : String := ""
  sourceKind : String := ""
  title : String := ""
  state : String := ""
  parent : String := ""
  created : String := ""
  updated : String := ""
  path : String := ""
  valid : Bool := false
  parseErr : Option String := none
  content : Option String := none
  duplicateCount : Option Nat := none
  deriving Repr, DecidableEq

/-- Embeds `ItemToJson` (lines 476-496). -/
def ItemToJson (item : ItemRecord) (includeContent : Bool) : ItemView :=
  { id := item.id, type := item.type, sourceKind := item.sourceKind
    title := item.title, state := item.state, parent := item.parent
    created := item.created, updated := item.updated, path := item.relativePath
    valid := item.valid
    parseErr := if item.parseError == "" then none else some item.parseError
    content := if includeContent then some item.rawContent else none }

/-- Embeds `ToIsoString` (lines 498-516): the `min()` sentinel renders as the
empty string; the calendar rendering of a real mtime mixes in the ambient wall
clock, which the model abstracts to a decimal rendering of the mtime. -/
def ToIsoString (value : Mtime) : String :=
  match value with
  | none => ""
  | some n => toString n

/-- Response of `ListItems` (lines 660-695). -/
structure ListItemsResponse where
  items : List ItemView := []
  warnings : List String := []
  error : Option String := none
  cachedAt : String := ""
  deriving Repr, DecidableEq

/-- Embeds `ListItems` (lines 660-695); returns the response together with
the mutated service state. -/
def ListItems (fs : FileSys) (st : ServiceState) (product : String)
    (forceRefresh : Bool) : ListItemsResponse × ServiceState :=
  if !IsValidProductName product then
    ({ error := some "Invalid product name" }, st)
  else
    let st1 := LoadProduct fs st product forceRefresh
    match assocFind? st1.cacheByProduct product with
    | none => ({ error := some "Product not found" }, st1)
    | some cache =>
      let items := cache.primaryById.map (fun e =>
        let v := ItemToJson (cache.allItems.getD e.2 default) false
        match assocFind? cache.idIndexes e.1 with
        | some idxs => { v with duplicateCount := some idxs.length }
        | none => v)
      ({ items := items, warnings := cache.warnings, error := none
         cachedAt := ToIsoString cache.latestMtime }, st1)

/-! ## Tree builder -/

/-- A node of the tree response: id, title, type, state, parent, children. -/
inductive TreeNode where
  | node (id title type state parent : String) (children : List TreeNode)
  deriving Repr

def TreeNode.nodeId : TreeNode → String
  | .node i _ _ _ _ _ => i

def TreeNode.kids : TreeNode → List TreeNode
  | .node _ _ _ _ _ cs => cs

/-- Append assembled children to a node, `node["children"].append`. -/
def appendKids : TreeNode → List TreeNode → TreeNode
  | .node i t ty s p cs, ks => .node i t ty s p (cs ++ ks)

/-- The hierarchy-eligible type test of `BuildTree` (lines 748-751). -/
def eligibleType (t : String) : Bool :=
  t == "Epic" || t == "Feature" || t == "UserStory" || t == "Task" ||
  t == "Bug" || t == "Theme"

/-- The items `BuildTree` processes in each of its three passes: eligible
type and non-empty id. -/
def treeEligible (items : List ItemView) : List ItemView :=
  items.filter (fun it => eligibleType it.type && !(it.id == ""))

/-- Insertion into a `std::set` modelled as an ordered list of firsts. -/
def setInsert (l : List String) (x : String) : List String :=
  if l.contains x then l else l ++ [x]

/-- Pass 1 of `BuildTree` (lines 747-766): nodes by id. -/
def byIdLoop (acc : List (String × TreeNode)) :
    List ItemView → List (String × TreeNode)
  | [] => acc
  | it :: rest =>
    byIdLoop (assocSet acc it.id (.node it.id it.title it.type it.state it.parent []))
      rest

def buildById (items : List ItemView) : List (String × TreeNode) :=
  byIdLoop [] (treeEligible items)

/-- Pass 1 of `BuildTree`, the `allIds` set. -/
def allIdsLoop (acc : List String) : List ItemView → List String
  | [] => acc
  | it :: rest => allIdsLoop (setInsert acc it.id) rest

def buildAllIds (items : List ItemView) : List String :=
  allIdsLoop [] (treeEligible items)

/-- Pass 2 of `BuildTree` (lines 768-786): the child-id map and the orphan
warnings. -/
def childLoop (allIds : List String)
    (acc : List (String × List String) × List String) :
    List ItemView → List (String × List String) × List String
  | [] => acc
  | it :: rest =>
    if it.parent == "" then childLoop allIds acc rest
    else
      let m := assocSet acc.1 it.parent ((assocFind? acc.1 it.parent).getD [] ++ [it.id])
      let w :=
        if allIds.contains it.parent then acc.2
        else acc.2 ++ ["Orphan parent missing for item " ++ it.id ++ ": " ++ it.parent]
      childLoop allIds (m, w) rest

def buildChildIds (items : List ItemView) (allIds : List String) :
    List (String × List String) × List String :=
  childLoop allIds ([], []) (treeEligible items)

/-- The mutable visiting/visited sets and the warning array of the DFS. -/
structure TreeSt where
  visiting : List String := []
  visited : List String := []
  warnings : List String := []
  deriving Repr, DecidableEq

mutual
/-- Embeds the recursive lambda `attachChildren` (lines 788-809).  The C++
recursion terminates because the `visiting` set blocks revisits along the
current path, bounding the depth by the number of nodes; the fuel plays that
depth bound and is instantiated at `BuildTreeCore` with a value that the
recursion can never exhaust. -/
def attachChildren (byId : List (String × TreeNode))
    (childIds : List (String × List String)) (fuel : Nat) (st : TreeSt)
    (nodeId : String) (node : TreeNode) : TreeNode × TreeSt :=
  match fuel with
  | 0 => (node, st)
  | fuel' + 1 =>
    let stA := { st with visiting := setInsert st.visiting nodeId
                         visited := setInsert st.visited nodeId }
    let r := attachList byId childIds fuel' ((assocFind? childIds nodeId).getD []) stA
    (appendKids node r.1,
     { r.2 with visiting := r.2.visiting.filter (fun x => !(x == nodeId)) })
termination_by (fuel, 0)

/-- The loop over `childIds[nodeId]` inside `attachChildren`. -/
def attachList (byId : List (String × TreeNode))
    (childIds : List (String × List String)) (fuel : Nat) (kids : List String)
    (st : TreeSt) : List TreeNode × TreeSt :=
  match kids with
  | [] => ([], st)
  | childId :: rest =>
    match assocFind? byId childId with
    | none => attachList byId childIds fuel rest st
    | some childNode =>
      if st.visiting.contains childId then
        let st2 := { st with warnings := st.warnings ++ ["Cycle detected at " ++ childId] }
        attachList byId childIds fuel rest st2
      else
        let r := attachChildren byId childIds fuel st childId childNode
        let r2 := attachList byId childIds fuel rest r.2
        (r.1 :: r2.1, r2.2)
termination_by (fuel, kids.length + 1)
end

/-- The root loop of `BuildTree` (lines 811-829). -/
def rootLoop (byId : List (String × TreeNode))
    (childIds : List (String × List String)) (allIds : List String) (fuel : Nat)
    (acc : List TreeNode × TreeSt) : List ItemView → List TreeNode × TreeSt
  | [] => acc
  | it :: rest =>
    let isRoot := it.parent == "" || !allIds.contains it.parent
    if isRoot && !acc.2.visited.contains it.id then
      let r := attachChildren byId childIds fuel acc.2 it.id
        ((assocFind? byId it.id).getD (.node it.id "" "" "" "" []))
      rootLoop byId childIds allIds fuel (acc.1 ++ [r.1], r.2) rest
    else rootLoop byId childIds allIds fuel acc rest

/-- The pure part of `BuildTree` (lines 743-829): from the listed items to
the forest and tree warnings. -/
def BuildTreeCore (items : List ItemView) : List TreeNode × List String :=
  let byId := buildById items
  let allIds := buildAllIds items
  let cw := buildChildIds items allIds
  let r := rootLoop byId cw.1 allIds (items.length + 1)
    ([], { warnings := cw.2 }) (treeEligible items)
  (r.1, r.2.warnings)

/-- Response of `BuildTree`. -/
structure TreeResponse where
  roots : List TreeNode := []
  warnings : List String := []
  error : Option String := none

/-- Embeds `BuildTree` (lines 731-836). -/
def BuildTree (fs : FileSys) (st : ServiceState) (product : String)
    (forceRefresh : Bool) : TreeResponse × ServiceState :=
  let r := ListItems fs st product forceRefresh
  match r.1.error with
  | some e => ({ error := some e }, r.2)
  | none =>
    let core := BuildTreeCore r.1.items
    ({ roots := core.1, warnings := core.2 ++ r.1.warnings }, r.2)

/-! ## Kanban builder -/

inductive Lane where
  | Backlog | Doing | Blocked | Review | Done
  deriving Repr, DecidableEq

/-- The lane classification chain of `BuildKanban` (lines 856-870), exactly
in source order. -/
def laneOf (state : String) : Lane :=
  if state == "InProgress" then .Doing
  else if state == "Blocked" || ToLower state == "blocked" then .Blocked
  else if state == "Review" || ToLower state == "review" then .Review
  else if state == "Done" || ToLower state == "done" || ToLower state == "closed" then .Done
  else if ToLower state == "inprogress" || ToLower state == "active" then .Doing
  else .Backlog

/-- The five lane arrays of the kanban response. -/
structure KanbanLanes where
  backlog : List ItemView := []
  doing : List ItemView := []
  blocked : List ItemView := []
  review : List ItemView := []
  done : List ItemView := []
  deriving Repr, DecidableEq

def laneItems (ls : KanbanLanes) : Lane → List ItemView
  | .Backlog => ls.backlog
  | .Doing => ls.doing
  | .Blocked => ls.blocked
  | .Review => ls.review
  | .Done => ls.done

def addToLane (ls : KanbanLanes) (l : Lane) (it : ItemView) : KanbanLanes :=
  match l with
  | .Backlog => { ls with backlog := ls.backlog ++ [it] }
  | .Doing => { ls with doing := ls.doing ++ [it] }
  | .Blocked => { ls with blocked := ls.blocked ++ [it] }
  | .Review => { ls with review := ls.review ++ [it] }
  | .Done => { ls with done := ls.done ++ [it] }

/-- The pure part of `BuildKanban` (lines 855-873). -/
def BuildKanbanCore (items : List ItemView) : KanbanLanes :=
  items.foldl (fun ls it => addToLane ls (laneOf it.state) it) {}

/-- Response of `BuildKanban`. -/
structure KanbanResponse where
  lanes : KanbanLanes := {}
  warnings : List String := []
  error : Option String := none

/-- Embeds `BuildKanban` (lines 838-879). -/
def BuildKanban (fs : FileSys) (st : ServiceState) (product : String)
    (forceRefresh : Bool) : KanbanResponse × ServiceState :=
  let r := ListItems fs st product forceRefresh
  match r.1.error with
  | some e => ({ error := some e }, r.2)
  | none =>
    ({ lanes := BuildKanbanCore r.1.items, warnings := r.1.warnings }, r.2)

/-! ## Workspace resolver -/

/-- Embeds `ResolveProductsPathFromInput` (lines 94-118). -/
def ResolveProductsPathFromInput (fs : FileSys) (inputPath : FsPath) : FsPath :=
  if inputPath = [] then []
  else
    let directProducts := inputPath ++ ["products"]
    if fs.pathExists directProducts && fs.isDirectory directProducts then directProducts
    else if filenameOf inputPath == "products" && fs.pathExists inputPath &&
        fs.isDirectory inputPath then inputPath
    else
      let nested := inputPath ++ ["_kano", "backlog", "products"]
      if fs.pathExists nested && fs.isDirectory nested then nested
      else []

/-- A user-typed path string as a component path. -/
def pathOfString (s : String) : FsPath :=
  ((splitOnChar '/' s.data).map String.mk).filter (fun c => !(c == ""))

/-- Response of `SwitchWorkspace` and `GetWorkspaceInfo`. -/
structure WorkspaceResponse where
  error : Option String := none
  productsRootStr : String := ""
  workspaceRootStr : String := ""
  switched : Bool := false
  deriving Repr, DecidableEq

/-- Embeds `SwitchWorkspace` (lines 904-932).  `weakly_canonical` is the
identity on the model filesystem, which has no symlinks and no dot
components. -/
def SwitchWorkspace (fs : FileSys) (st : ServiceState) (inputPath : String) :
    WorkspaceResponse × ServiceState :=
  let trimmed := Trim inputPath
  if trimmed == "" then ({ error := some "Missing workspace path" }, st)
  else
    let requested := pathOfString trimmed
    let resolved := ResolveProductsPathFromInput fs requested
    if resolved = [] then
      ({ error := some
          "Path does not contain a backlog products directory (expected products/ or _kano/backlog/products/)" },
       st)
    else
      ({ productsRootStr := joinPath resolved
         workspaceRootStr := joinPath (parentPath resolved)
         switched := true },
       { productsRoot := resolved, cacheByProduct := [] })

/-! ## Association-list lemmas -/

@[simp] theorem assocFind?_nil {α : Type} (k : String) :
    assocFind? ([] : List (String × α)) k = none := rfl

theorem assocFind?_cons {α : Type} (e : String × α) (m : List (String × α))
    (k : String) :
    assocFind? (e :: m) k = if e.1 == k then some e.2 else assocFind? m k := by
  unfold assocFind?
  rw [List.find?_cons]
  by_cases he : e.1 == k <;> simp [he]

theorem assocFind?_eq_some {α : Type} {m : List (String × α)} {k : String} {v : α}
    (h : assocFind? m k = some v) : (k, v) ∈ m := by
  induction m with
  | nil => simp at h
  | cons e rest ih =>
    rw [assocFind?_cons] at h
    by_cases he : e.1 == k
    · simp only [he, if_true, Option.some.injEq] at h
      have h1 : e.1 = k := by simpa using he
      cases e with
      | mk a b =>
        simp only at h1 h
        subst h1; subst h
        exact List.mem_cons_self _ _
    · simp only [he, if_false] at h
      right
      exact ih h

theorem assocFind?_assocSet_self {α : Type} (m : List (String × α)) (k : String)
    (v : α) : assocFind? (assocSet m k v) k = some v := by
  induction m with
  | nil => simp [assocSet, assocFind?_cons]
  | cons e rest ih =>
    unfold assocSet
    by_cases he : e.1 == k
    · simp [he, assocFind?_cons]
    · simp [he, assocFind?_cons, ih]

theorem assocFind?_assocSet_ne {α : Type} (m : List (String × α)) (k k' : String)
    (v : α) (h : k' ≠ k) : assocFind? (assocSet m k v) k' = assocFind? m k' := by
  have hkk : (k == k') = false := by
    simp only [beq_eq_false_iff_ne]
    exact fun hc => h hc.symm
  induction m with
  | nil => simp [assocSet, assocFind?_cons, hkk]
  | cons e rest ih =>
    unfold assocSet
    by_cases he : e.1 == k
    · have he1 : e.1 = k := by simpa using he
      have he' : (e.1 == k') = false := by
        simp only [beq_eq_false_iff_ne, he1]
        exact fun hc => h hc.symm
      simp [he, assocFind?_cons, hkk, he']
    · rw [if_neg (by simpa using he)]
      rw [assocFind?_cons, assocFind?_cons]
      by_cases he' : e.1 == k' <;> simp [he', ih]

theorem assocSet_mem {α : Type} {m : List (String × α)} {k : String} {v : α}
    {e : String × α} (h : e ∈ assocSet m k v) : e ∈ m ∨ e = (k, v) := by
  induction m with
  | nil => simpa [assocSet] using h
  | cons x rest ih =>
    unfold assocSet at h
    by_cases hx : x.1 == k
    · rw [if_pos hx] at h
      rcases List.mem_cons.mp h with h1 | h1
      · right; exact h1
      · left; exact List.mem_cons_of_mem _ h1
    · rw [if_neg (by simpa using hx)] at h
      rcases List.mem_cons.mp h with h1 | h1
      · left; exact h1 ▸ List.mem_cons_self _ _
      · rcases ih h1 with h2 | h2
        · left; exact List.mem_cons_of_mem _ h2
        · right; exact h2

/-! ## C5: kanban lane classification -/

/-- The five-way case-insensitive state mapping in the words of the spec:
`inprogress` or `active` to Doing, `blocked` to Blocked, `review` to Review,
`done` or `closed` to Done, every other state to Backlog. -/
def specLane (state : String) : Lane :=
  let lowered := ToLower state
  if lowered == "inprogress" || lowered == "active" then .Doing
  else if lowered == "blocked" then .Blocked
  else if lowered == "review" then .Review
  else if lowered == "done" || lowered == "closed" then .Done
  else .Backlog

theorem laneOf_eq_specLane (s : String) : laneOf s = specLane s := by
  by_cases h1 : s = "InProgress"
  · subst h1; decide
  by_cases h2 : s = "Blocked"
  · subst h2; decide
  by_cases h3 : s = "Review"
  · subst h3; decide
  by_cases h4 : s = "Done"
  · subst h4; decide
  have e1 : (s == "InProgress") = false := by simpa using h1
  have e2 : (s == "Blocked") = false := by simpa using h2
  have e3 : (s == "Review") = false := by simpa using h3
  have e4 : (s == "Done") = false := by simpa using h4
  unfold laneOf specLane
  simp only [e1, e2, e3, e4, Bool.false_or, if_false]
  by_cases hb : ToLower s = "blocked"
  · simp [hb]
  by_cases hr : ToLower s = "review"
  · simp [hr]
  by_cases hd : ToLower s = "done"
  · simp [hd]
  by_cases hc : ToLower s = "closed"
  · simp [hc]
  by_cases hi : ToLower s = "inprogress"
  · simp [hi]
  by_cases ha : ToLower s = "active"
  · simp [ha]
  simp [hb, hr, hd, hc, hi, ha]

theorem laneItems_addToLane_self (ls : KanbanLanes) (L : Lane) (it : ItemView) :
    laneItems (addToLane ls L it) L = laneItems ls L ++ [it] := by
  cases L <;> rfl

theorem laneItems_addToLane_ne (ls : KanbanLanes) (l L : Lane) (it : ItemView)
    (h : l ≠ L) : laneItems (addToLane ls l it) L = laneItems ls L := by
  cases l <;> cases L <;> first | rfl | exact absurd rfl h

theorem laneItems_kanban_foldl (items : List ItemView) :
    ∀ (ls : KanbanLanes) (L : Lane),
      laneItems (items.foldl (fun a it => addToLane a (laneOf it.state) it) ls) L =
        laneItems ls L ++ items.filter (fun it => laneOf it.state == L) := by
  induction items with
  | nil => intro ls L; simp
  | cons it rest ih =>
    intro ls L
    rw [List.foldl_cons, ih, List.filter_cons]
    by_cases h : laneOf it.state = L
    · rw [if_pos (by simpa using h), h, laneItems_addToLane_self]
      simp
    · rw [if_neg (by simpa using h), laneItems_addToLane_ne ls _ L it h]

/-- C5: every listed item lands in exactly the lane given by the case
insensitive state mapping of the spec — each lane of `BuildKanbanCore` holds
precisely the items whose state maps to it, in input order, so each item is
placed in exactly one lane. -/
theorem kanban_lane_classification (items : List ItemView) (L : Lane) :
    laneItems (BuildKanbanCore items) L =
      items.filter (fun it => specLane it.state == L) := by
  unfold BuildKanbanCore
  rw [laneItems_kanban_foldl]
  have h0 : laneItems {} L = [] := by cases L <;> rfl
  rw [h0, List.nil_append]
  have hf : (fun (it : ItemView) => laneOf it.state == L) =
      (fun (it : ItemView) => specLane it.state == L) := by
    funext it
    rw [laneOf_eq_specLane]
  rw [hf]

/-! ## C9 and C10: workspace resolution and switch -/

/-- The resolution cascade in the words of the spec: try `input/products`,
then `input` itself when its last segment is `products`, then
`input/_kano/backlog/products`, and take the first that exists as a
directory; empty on failure. -/
def claimResolve (fs : FileSys) (inputPath : FsPath) : FsPath :=
  let candidates :=
    [inputPath ++ ["products"]] ++
    (if filenameOf inputPath == "products" then [inputPath] else []) ++
    [inputPath ++ ["_kano", "backlog", "products"]]
  match candidates.find? (fun c => fs.pathExists c && fs.isDirectory c) with
  | some c => c
  | none => []

/-- C9: resolution tries the three layouts in the stated order and returns
the first existing directory, and a successful switch installs the resolved
path as products root and drops every cached product. -/
theorem workspace_switch_resolution (fs : FileSys) (st : ServiceState)
    (input : FsPath) (s : String) (hne : input ≠ []) :
    ResolveProductsPathFromInput fs input = claimResolve fs input ∧
    ((SwitchWorkspace fs st s).1.error = none →
      (SwitchWorkspace fs st s).2.productsRoot =
          ResolveProductsPathFromInput fs (pathOfString (Trim s)) ∧
        (SwitchWorkspace fs st s).2.cacheByProduct = []) := by
  constructor
  · unfold ResolveProductsPathFromInput claimResolve
    rw [if_neg hne]
    by_cases t1 : fs.pathExists (input ++ ["products"]) && fs.isDirectory (input ++ ["products"])
    · simp [t1, List.find?]
    · by_cases tf : filenameOf input == "products"
      · by_cases t2 : fs.pathExists input && fs.isDirectory input
        · simp [t1, tf, t2, List.find?]
        · by_cases t3 : fs.pathExists (input ++ ["_kano", "backlog", "products"]) &&
              fs.isDirectory (input ++ ["_kano", "backlog", "products"])
          · simp [t1, tf, t2, t3, List.find?]
          · simp [t1, tf, t2, t3, List.find?]
      · by_cases t3 : fs.pathExists (input ++ ["_kano", "backlog", "products"]) &&
            fs.isDirectory (input ++ ["_kano", "backlog", "products"])
        · simp [t1, tf, t3, List.find?]
        · simp [t1, tf, t3, List.find?]
  · intro herr
    unfold SwitchWorkspace at herr ⊢
    by_cases h1 : Trim s == ""
    · simp [h1] at herr
    · by_cases h2 : ResolveProductsPathFromInput fs (pathOfString (Trim s)) = []
      · simp [h1, h2] at herr
      · simp [h1, h2]

/-- C10: when `SwitchWorkspace` returns an error, neither the products root
nor any cached product changes. -/
theorem switch_error_preserves_state (fs : FileSys) (st : ServiceState)
    (s : String) (h : (SwitchWorkspace fs st s).1.error.isSome = true) :
    (SwitchWorkspace fs st s).2 = st := by
  unfold SwitchWorkspace at h ⊢
  by_cases h1 : Trim s == ""
  · simp [h1]
  · by_cases h2 : ResolveProductsPathFromInput fs (pathOfString (Trim s)) = []
    · simp [h1, h2]
    · simp [h1, h2] at h

/-- Concrete filesystem for the workspace witnesses: a workspace reachable
only through the nested `_kano/backlog/products` layout. -/
def wsFs : FileSys :=
  { dirs := [["home"], ["home", "ws"], ["home", "ws", "_kano"],
             ["home", "ws", "_kano", "backlog"],
             ["home", "ws", "_kano", "backlog", "products"]]
  , files := [] }

def wsSt : ServiceState :=
  { productsRoot := ["old", "products"]
  , cacheByProduct := [("stale", { latestMtime := some 7 })] }

/-- Witness for C9 at a concrete input: the nested layout resolves and the
switch installs it and clears the cache map. -/
theorem workspace_switch_resolution_witness :
    ResolveProductsPathFromInput wsFs ["home", "ws"] = claimResolve wsFs ["home", "ws"] ∧
    ((SwitchWorkspace wsFs wsSt "home/ws").2.productsRoot =
        ResolveProductsPathFromInput wsFs (pathOfString (Trim "home/ws")) ∧
      (SwitchWorkspace wsFs wsSt "home/ws").2.cacheByProduct = []) :=
  ⟨(workspace_switch_resolution wsFs wsSt ["home", "ws"] "home/ws" (by decide)).1,
   (workspace_switch_resolution wsFs wsSt ["home", "ws"] "home/ws" (by decide)).2
     (by decide)⟩

/-- Witness for C10 at a concrete input: a path with no products layout
errors and leaves the state untouched. -/
theorem switch_error_preserves_state_witness :
    (SwitchWorkspace wsFs wsSt "nowhere").2 = wsSt :=
  switch_error_preserves_state wsFs wsSt "nowhere" (by decide)

/-! ## C6: cache staleness gating -/

/-- The rebuild condition in the words of the spec: a forced refresh, a
missing cache entry, or a live-scan mtime strictly above the cached
watermark. -/
def staleCondition (fs : FileSys) (st : ServiceState) (product : String)
    (forceRefresh : Bool) : Prop :=
  forceRefresh = true ∨
  assocFind? st.cacheByProduct product = none ∨
  ∃ c, assocFind? st.cacheByProduct product = some c ∧
    mtimeLt c.latestMtime
      (ScanLatestMtime fs st.productsRoot (st.productsRoot ++ [product])) = true

theorem ShouldLoad_iff (fs : FileSys) (st : ServiceState) (product : String)
    (force : Bool) :
    ShouldLoad fs st product force = true ↔ staleCondition fs st product force := by
  unfold ShouldLoad staleCondition
  by_cases hf : force
  · subst hf; simp
  · have hf' : force = false := by simpa using hf
    subst hf'
    simp only [Bool.false_eq_true, if_false, false_or]
    cases hfind : assocFind? st.cacheByProduct product with
    | none => simp
    | some c =>
      simp only [hfind, reduceCtorEq, false_or]
      constructor
      · intro h; exact ⟨c, rfl, h⟩
      · rintro ⟨c', hc', hm⟩
        cases hc'
        exact hm

/-- C6: loading rebuilds the cache entry exactly under the stale condition;
otherwise the state, and with it the cached `ProductCache`, is unchanged. -/
theorem load_rebuild_iff (fs : FileSys) (st : ServiceState) (product : String)
    (force : Bool) :
    (staleCondition fs st product force →
      assocFind? (LoadProduct fs st product force).cacheByProduct product =
        some (RebuildCache fs st.productsRoot product)) ∧
    (¬staleCondition fs st product force → LoadProduct fs st product force = st) := by
  constructor
  · intro h
    have hsl : ShouldLoad fs st product force = true :=
      (ShouldLoad_iff fs st product force).mpr h
    unfold LoadProduct
    rw [hsl]
    simpa using assocFind?_assocSet_self st.cacheByProduct product
      (RebuildCache fs st.productsRoot product)
  · intro h
    have hsl : ShouldLoad fs st product force = false := by
      by_contra hc
      exact h ((ShouldLoad_iff fs st product force).mp (by simpa using hc))
    unfold LoadProduct
    rw [hsl]
    simp

/-- Witness for C6 at a concrete input: a forced refresh installs the rebuilt
cache entry. -/
theorem load_rebuild_iff_witness :
    assocFind? (LoadProduct wsFs wsSt "p" true).cacheByProduct "p" =
      some (RebuildCache wsFs wsSt.productsRoot "p") :=
  (load_rebuild_iff wsFs wsSt "p" true).1 (Or.inl rfl)

/-! ## C3: listing a nonexistent product -/

def ghostFs : FileSys := { dirs := [["root", "products"]], files := [] }

def ghostSt : ServiceState := { productsRoot := ["root", "products"] }

/-- Counterexample to C3 as stated: the product name `ghost` passes
validation and no product directory exists under the active products root,
yet `ListItems` returns a successful (error-free) response with empty items
and a warning, not an error value. -/
theorem listitems_missing_product_counterexample :
    IsValidProductName "ghost" = true ∧
    ghostFs.pathExists (ghostSt.productsRoot ++ ["ghost"]) = false ∧
    (ListItems ghostFs ghostSt "ghost" false).1.error = none ∧
    (ListItems ghostFs ghostSt "ghost" false).1.items = [] ∧
    (ListItems ghostFs ghostSt "ghost" false).1.warnings = ["Missing items directory"] := by
  decide

/-- C3 amended: for a validated product name whose items directory does not
exist and which has no cache entry yet, `ListItems` succeeds with empty items
and the warning `Missing items directory`; the `Product not found` error path
is not taken, because the rebuild installs a cache entry on every path. -/
theorem listitems_missing_product_succeeds (fs : FileSys) (st : ServiceState)
    (product : String) (force : Bool)
    (hname : IsValidProductName product = true)
    (hnodir : fs.pathExists (st.productsRoot ++ [product] ++ ["items"]) = false)
    (hnocache : assocFind? st.cacheByProduct product = none) :
    (ListItems fs st product force).1.error = none ∧
    (ListItems fs st product force).1.items = [] ∧
    (ListItems fs st product force).1.warnings = ["Missing items directory"] := by
  have hsl : ShouldLoad fs st product force = true := by
    unfold ShouldLoad
    by_cases hf : force
    · simp [hf]
    · simp [hf, hnocache]
  have hre : RebuildCache fs st.productsRoot product =
      { latestMtime := ScanLatestMtime fs st.productsRoot (st.productsRoot ++ [product])
        warnings := ["Missing items directory"] } := by
    unfold RebuildCache
    have hnodir' : fs.pathExists (st.productsRoot ++ [product, "items"]) = false := by
      simpa [List.append_assoc] using hnodir
    simp [hnodir']
  have hload : LoadProduct fs st product force =
      { st with cacheByProduct :=
          assocSet st.cacheByProduct product (RebuildCache fs st.productsRoot product) } := by
    unfold LoadProduct
    rw [hsl]
    simp
  have hfind : assocFind? (LoadProduct fs st product force).cacheByProduct product =
      some (RebuildCache fs st.productsRoot product) := by
    rw [hload]
    exact assocFind?_assocSet_self st.cacheByProduct product _
  unfold ListItems
  rw [hname]
  simp only [Bool.not_true, Bool.false_eq_true, if_false]
  rw [hfind, hre]
  simp

/-- Witness for the amended C3 at the concrete ghost product. -/
theorem listitems_missing_product_succeeds_witness :
    (ListItems ghostFs ghostSt "ghost" false).1.error = none ∧
    (ListItems ghostFs ghostSt "ghost" false).1.items = [] ∧
    (ListItems ghostFs ghostSt "ghost" false).1.warnings = ["Missing items directory"] :=
  listitems_missing_product_succeeds ghostFs ghostSt "ghost" false
    (by decide) (by decide) (by decide)

/-! ## C1: primary selection -/

def assocKeys {α : Type} (m : List (String × α)) : List String :=
  m.map (fun e => e.1)

@[simp] theorem assocKeys_nil {α : Type} : assocKeys ([] : List (String × α)) = [] := rfl

@[simp] theorem assocKeys_cons {α : Type} (e : String × α) (m : List (String × α)) :
    assocKeys (e :: m) = e.1 :: assocKeys m := rfl

theorem mem_assocKeys_assocSet {α : Type} (m : List (String × α)) (k x : String)
    (v : α) : x ∈ assocKeys (assocSet m k v) ↔ x ∈ assocKeys m ∨ x = k := by
  induction m with
  | nil => simp [assocSet]
  | cons e rest ih =>
    unfold assocSet
    by_cases he : e.1 == k
    · have he1 : e.1 = k := by simpa using he
      rw [if_pos he]
      simp [he1]
      tauto
    · rw [if_neg (by simpa using he)]
      simp [ih]
      tauto

theorem nodup_assocKeys_assocSet {α : Type} (m : List (String × α)) (k : String)
    (v : α) (h : (assocKeys m).Nodup) : (assocKeys (assocSet m k v)).Nodup := by
  induction m with
  | nil => simp [assocSet]
  | cons e rest ih =>
    unfold assocSet
    rw [assocKeys_cons, List.nodup_cons] at h
    by_cases he : e.1 == k
    · have he1 : e.1 = k := by simpa using he
      rw [if_pos he, assocKeys_cons, List.nodup_cons]
      exact ⟨he1 ▸ h.1, h.2⟩
    · rw [if_neg (by simpa using he), assocKeys_cons, List.nodup_cons]
      refine ⟨?_, ih h.2⟩
      intro hc
      rcases (mem_assocKeys_assocSet rest k e.1 v).mp hc with h1 | h1
      · exact h.1 h1
      · exact absurd h1 (by simpa using he)

theorem assocFind?_of_mem_nodup {α : Type} {m : List (String × α)} {k : String}
    {v : α} (hnd : (assocKeys m).Nodup) (hm : (k, v) ∈ m) :
    assocFind? m k = some v := by
  induction m with
  | nil => simp at hm
  | cons e rest ih =>
    rw [assocKeys_cons, List.nodup_cons] at hnd
    rw [assocFind?_cons]
    rcases List.mem_cons.mp hm with h1 | h1
    · subst h1
      simp
    · have hk : k ∈ assocKeys rest := List.mem_map.mpr ⟨(k, v), h1, rfl⟩
      have he : (e.1 == k) = false := by
        simp only [beq_eq_false_iff_ne]
        intro hc
        exact hnd.1 (hc ▸ hk)
      rw [he]
      simp only [Bool.false_eq_true, if_false]
      exact ih hnd.2 h1

/-- Positions, starting from counter `i`, of the records carrying a given
id. -/
def idPositions (id : String) : Nat → List ItemRecord → List Nat
  | _, [] => []
  | i, item :: rest =>
    if item.id = id then i :: idPositions id (i + 1) rest
    else idPositions id (i + 1) rest

theorem indexLoop_keys_nodup (items : List ItemRecord) :
    ∀ (acc : List (String × List Nat)) (i : Nat), (assocKeys acc).Nodup →
      (assocKeys (indexLoop acc i items)).Nodup := by
  induction items with
  | nil => intro acc i h; exact h
  | cons item rest ih =>
    intro acc i h
    unfold indexLoop
    by_cases hid : item.id == ""
    · rw [if_pos hid]; exact ih _ _ h
    · rw [if_neg (by simpa using hid)]
      exact ih _ _ (nodup_assocKeys_assocSet acc item.id _ h)

theorem indexLoop_values_nonempty (items : List ItemRecord) :
    ∀ (acc : List (String × List Nat)) (i : Nat),
      (∀ e ∈ acc, e.2 ≠ []) → ∀ e ∈ indexLoop acc i items, e.2 ≠ [] := by
  induction items with
  | nil => intro acc i h; exact h
  | cons item rest ih =>
    intro acc i h
    unfold indexLoop
    by_cases hid : item.id == ""
    · rw [if_pos hid]; exact ih _ _ h
    · rw [if_neg (by simpa using hid)]
      refine ih _ _ ?_
      intro e he
      rcases assocSet_mem he with h1 | h1
      · exact h e h1
      · subst h1; simp

theorem indexLoop_lookup (items : List ItemRecord) :
    ∀ (acc : List (String × List Nat)) (i : Nat) (id : String), id ≠ "" →
      (assocFind? (indexLoop acc i items) id).getD [] =
        (assocFind? acc id).getD [] ++ idPositions id i items := by
  induction items with
  | nil => intro acc i id _; simp [indexLoop, idPositions]
  | cons item rest ih =>
    intro acc i id hid
    unfold indexLoop idPositions
    by_cases hempty : item.id == ""
    · have h1 : item.id = "" := by simpa using hempty
      have h2 : ¬item.id = id := fun hc => hid (hc.symm.trans h1)
      rw [if_pos hempty, if_neg h2]
      exact ih acc (i + 1) id hid
    · rw [if_neg (by simpa using hempty)]
      by_cases heq : item.id = id
      · rw [if_pos heq, ih _ (i + 1) id hid, heq, assocFind?_assocSet_self]
        simp
      · rw [if_neg heq, ih _ (i + 1) id hid,
          assocFind?_assocSet_ne acc item.id id _ (fun hc => heq hc.symm)]

theorem indexLoop_lookup_empty (items : List ItemRecord) :
    ∀ (acc : List (String × List Nat)) (i : Nat), assocFind? acc "" = none →
      assocFind? (indexLoop acc i items) "" = none := by
  induction items with
  | nil => intro acc i h; exact h
  | cons item rest ih =>
    intro acc i h
    unfold indexLoop
    by_cases hempty : item.id == ""
    · rw [if_pos hempty]; exact ih _ _ h
    · rw [if_neg (by simpa using hempty)]
      refine ih _ _ ?_
      rw [assocFind?_assocSet_ne acc item.id "" _
        (fun hc => (by simpa using hempty : ¬item.id = "") hc.symm)]
      exact h

theorem mem_idPositions (id : String) (items : List ItemRecord) :
    ∀ (i j : Nat), j ∈ idPositions id i items ↔
      i ≤ j ∧ j - i < items.length ∧ (items.getD (j - i) default).id = id := by
  induction items with
  | nil => intro i j; simp [idPositions]
  | cons item rest ih =>
    intro i j
    unfold idPositions
    constructor
    · intro hmem
      by_cases heq : item.id = id
      · rw [if_pos heq] at hmem
        rcases List.mem_cons.mp hmem with rfl | hmem2
        · refine ⟨Nat.le_refl j, by simp, ?_⟩
          rw [Nat.sub_self, List.getD_cons_zero]
          exact heq
        · obtain ⟨h1, h2, h3⟩ := (ih (i + 1) j).mp hmem2
          have hd : j - i = (j - (i + 1)) + 1 := by omega
          refine ⟨by omega, by rw [List.length_cons]; omega, ?_⟩
          rw [hd, List.getD_cons_succ]
          exact h3
      · rw [if_neg heq] at hmem
        obtain ⟨h1, h2, h3⟩ := (ih (i + 1) j).mp hmem
        have hd : j - i = (j - (i + 1)) + 1 := by omega
        refine ⟨by omega, by rw [List.length_cons]; omega, ?_⟩
        rw [hd, List.getD_cons_succ]
        exact h3
    · rintro ⟨h1, h2, h3⟩
      by_cases hji : j = i
      · subst hji
        rw [Nat.sub_self, List.getD_cons_zero] at h3
        rw [if_pos h3]
        exact List.mem_cons_self _ _
      · have hd : j - i = (j - (i + 1)) + 1 := by omega
        rw [hd, List.getD_cons_succ] at h3
        have hrec : j ∈ idPositions id (i + 1) rest :=
          (ih (i + 1) j).mpr ⟨by omega, by rw [List.length_cons] at h2; omega, h3⟩
        by_cases heq : item.id = id
        · rw [if_pos heq]; exact List.mem_cons_of_mem _ hrec
        · rw [if_neg heq]; exact hrec

/-- The replacement rule of the claim, as a single disjunctive test applied
to every index after the first-discovered one. -/
def specPrimary (items : List ItemRecord) (first : Nat) (rest : List Nat) : Nat :=
  rest.foldl
    (fun primary index =>
      let candidate := items.getD index default
      let current := items.getD primary default
      if strLt current.updated candidate.updated ||
          (candidate.updated == current.updated &&
            strLt candidate.relativePath current.relativePath) then index
      else primary)
    first

theorem pickPrimary_eq_specPrimary (items : List ItemRecord) (h0 : Nat)
    (t : List Nat) : pickPrimary items (h0 :: t) = specPrimary items h0 t := by
  have hfun : (fun (primary index : Nat) =>
      let candidate := items.getD index default
      let current := items.getD primary default
      let p1 := if strLt current.updated candidate.updated then index else primary
      if candidate.updated == current.updated &&
          strLt candidate.relativePath current.relativePath then index
      else p1) =
      (fun (primary index : Nat) =>
        let candidate := items.getD index default
        let current := items.getD primary default
        if strLt current.updated candidate.updated ||
            (candidate.updated == current.updated &&
              strLt candidate.relativePath current.relativePath) then index
        else primary) := by
    funext primary index
    simp only []
    by_cases c2 : ((items.getD index default).updated == (items.getD primary default).updated &&
        strLt (items.getD index default).relativePath (items.getD primary default).relativePath) = true
    · rw [if_pos c2, if_pos (by rw [c2]; simp)]
    · rw [if_neg c2]
      by_cases c1 : strLt (items.getD primary default).updated (items.getD index default).updated = true
      · rw [if_pos c1, if_pos (by rw [c1]; simp)]
      · rw [if_neg c1, if_neg ?_]
        simp only [Bool.or_eq_true]
        push_neg
        exact ⟨c1, c2⟩
  unfold pickPrimary specPrimary
  rw [List.headD_cons, List.foldl_cons, hfun]
  congr 1
  simp only []
  split_ifs <;> rfl

theorem primaryLoop_lookup_notin (items : List ItemRecord)
    (es : List (String × List Nat)) :
    ∀ (acc : List (String × Nat)) (k : String), k ∉ assocKeys es →
      assocFind? (primaryLoop items acc es) k = assocFind? acc k := by
  induction es with
  | nil => intro acc k _; rfl
  | cons e rest ih =>
    intro acc k hk
    rw [assocKeys_cons] at hk
    simp only [List.mem_cons, not_or] at hk
    unfold primaryLoop
    by_cases hv : e.2.isEmpty
    · rw [if_pos hv]; exact ih _ _ hk.2
    · rw [if_neg hv]
      rw [ih _ _ hk.2]
      exact assocFind?_assocSet_ne acc e.1 k _ hk.1

theorem primaryLoop_lookup (items : List ItemRecord)
    (es : List (String × List Nat)) :
    ∀ (acc : List (String × Nat)) (k : String) (v : List Nat),
      (assocKeys es).Nodup → (k, v) ∈ es → v ≠ [] →
      assocFind? (primaryLoop items acc es) k = some (pickPrimary items v) := by
  induction es with
  | nil => intro acc k v _ hm _; simp at hm
  | cons e rest ih =>
    intro acc k v hnd hm hv
    rw [assocKeys_cons, List.nodup_cons] at hnd
    unfold primaryLoop
    rcases List.mem_cons.mp hm with h1 | h1
    · subst h1
      have hvempty : (v.isEmpty : Bool) = false := by
        cases v
        · exact absurd rfl hv
        · rfl
      rw [if_neg (by simp [hvempty])]
      rw [primaryLoop_lookup_notin items rest _ k hnd.1]
      exact assocFind?_assocSet_self acc k _
    · have hk : k ∈ assocKeys rest := List.mem_map.mpr ⟨(k, v), h1, rfl⟩
      by_cases hv2 : e.2.isEmpty
      · rw [if_pos hv2]; exact ih _ _ _ hnd.2 h1 hv
      · rw [if_neg hv2]; exact ih _ _ _ hnd.2 h1 hv

/-- C1: for every id indexed in a rebuilt cache, the chosen primary is the
fold of the replacement rule of the spec over the other indexes, starting
from the first-discovered index. -/
theorem primary_selection_rule (items : List ItemRecord) (id : String)
    (idxs : List Nat) (h : (id, idxs) ∈ computeIndexes items) :
    idxs ≠ [] ∧
    assocFind? (computePrimaries items (computeIndexes items)) id =
      some (specPrimary items (idxs.headD 0) idxs.tail) := by
  have hnd : (assocKeys (computeIndexes items)).Nodup :=
    indexLoop_keys_nodup items [] 0 (by simp)
  have hne : idxs ≠ [] :=
    indexLoop_values_nonempty items [] 0 (by simp) (id, idxs) h
  refine ⟨hne, ?_⟩
  have hfind : assocFind? (computePrimaries items (computeIndexes items)) id =
      some (pickPrimary items idxs) :=
    primaryLoop_lookup items (computeIndexes items) [] id idxs hnd h hne
  rw [hfind]
  cases idxs with
  | nil => exact absurd rfl hne
  | cons h0 t =>
    rw [pickPrimary_eq_specPrimary]
    simp

/-- Concrete duplicate records for the C1 witness: same id, one later
`updated`, and an equal-updated pair distinguished by `relativePath`. -/
def dupItems : List ItemRecord :=
  [{ id := "X", updated := "2024-01-02", relativePath := "items/a.md", valid := true },
   { id := "X", updated := "2024-01-01", relativePath := "items/b.md", valid := true }]

def dupItemsTie : List ItemRecord :=
  [{ id := "X", updated := "2024-01-01", relativePath := "items/b.md", valid := true },
   { id := "X", updated := "2024-01-01", relativePath := "items/a.md", valid := true }]

/-- Witness for C1: on the two spec examples the rule picks the record with
the greater `updated`, and on an `updated` tie the smaller `relativePath`. -/
theorem primary_selection_rule_witness :
    (("X", [0, 1]) ∈ computeIndexes dupItems ∧
      assocFind? (computePrimaries dupItems (computeIndexes dupItems)) "X" =
        some (specPrimary dupItems 0 [1]) ∧
      specPrimary dupItems 0 [1] = 0) ∧
    (("X", [0, 1]) ∈ computeIndexes dupItemsTie ∧
      assocFind? (computePrimaries dupItemsTie (computeIndexes dupItemsTie)) "X" =
        some (specPrimary dupItemsTie 0 [1]) ∧
      specPrimary dupItemsTie 0 [1] = 1) := by
  constructor
  · refine ⟨by decide, ?_, by decide⟩
    have h := (primary_selection_rule dupItems "X" [0, 1] (by decide)).2
    simpa using h
  · refine ⟨by decide, ?_, by decide⟩
    have h := (primary_selection_rule dupItemsTie "X" [0, 1] (by decide)).2
    simpa using h

/-! ## C4: invalid records and id indexing

The frontmatter parser null-normalizes every value with `NormalizeNullToken`,
which uses the same `ToLower` as the id check in `ParseItem`; consequently no
frontmatter value, and hence no item id, can lower to the literal `null`, and
every invalid record of a rebuilt cache carries an empty id. -/

theorem ToLower_data (s : String) : (ToLower s).data = s.data.map lowerChar := rfl

theorem lowerChar_of_ws (c : Char) (h : isWsChar c = true) : lowerChar c = c := by
  unfold isWsChar at h
  simp only [Bool.or_eq_true, decide_eq_true_eq] at h
  rcases h with ((h | h) | h) | h <;> subst h <;> decide

theorem no_ws_of_ToLower_null (u : String) (h : ToLower u = "null") :
    ∀ c ∈ u.data, isWsChar c = false := by
  intro c hc
  by_contra hcontra
  have hws : isWsChar c = true := by simpa using hcontra
  have hmem : lowerChar c ∈ (ToLower u).data :=
    ToLower_data u ▸ List.mem_map.mpr ⟨c, hc, rfl⟩
  rw [h, lowerChar_of_ws c hws] at hmem
  unfold isWsChar at hws
  simp only [Bool.or_eq_true, decide_eq_true_eq] at hws
  rcases hws with ((h1 | h1) | h1) | h1 <;> subst h1 <;>
    exact absurd hmem (by decide)

theorem Trim_eq_self_of_no_ws (u : String)
    (h : ∀ c ∈ u.data, isWsChar c = false) : Trim u = u := by
  unfold Trim
  have h1 : u.data.dropWhile isWsChar = u.data := by
    cases hu : u.data with
    | nil => rfl
    | cons c cs =>
      rw [List.dropWhile_cons, h c (by rw [hu]; exact List.mem_cons_self _ _)]
      simp
  rw [h1]
  have h2 : u.data.reverse.dropWhile isWsChar = u.data.reverse := by
    cases hu : u.data.reverse with
    | nil => rfl
    | cons c cs =>
      have hc : c ∈ u.data := by
        rw [← List.mem_reverse, hu]
        exact List.mem_cons_self _ _
      rw [List.dropWhile_cons, h c hc]
      simp
  rw [h2, List.reverse_reverse]

theorem ToLower_NormalizeNullToken_ne_null (v : String) :
    ToLower (NormalizeNullToken v) ≠ "null" := by
  unfold NormalizeNullToken
  simp only []
  by_cases hmatch : (ToLower (Trim v) == "null" || ToLower (Trim v) == "none" ||
      ToLower (Trim v) == "~") = true
  · rw [if_pos hmatch]
    decide
  · rw [if_neg hmatch]
    intro hc
    have hnull : ToLower (Trim v) = "null" := by
      rw [Trim_eq_self_of_no_ws v (no_ws_of_ToLower_null v hc)]
      exact hc
    simp [hnull] at hmatch

theorem ToLower_ne_null_of_comma (s : String) (h : ',' ∈ s.data) :
    ToLower s ≠ "null" := by
  intro hc
  have hmem : ',' ∈ (ToLower s).data := by
    rw [ToLower_data]
    exact List.mem_map.mpr ⟨',', h, by decide⟩
  rw [hc] at hmem
  simp at hmem

/-- All values of a frontmatter map are safe: none lowers to `null`. -/
def NullSafeMap (m : List (String × String)) : Prop :=
  ∀ e ∈ m, ToLower e.2 ≠ "null"

theorem fmGet_ne_null {m : List (String × String)} (h : NullSafeMap m)
    (k : String) : ToLower (fmGet m k) ≠ "null" := by
  unfold fmGet
  cases hf : assocFind? m k with
  | none => decide
  | some v => exact h (k, v) (assocFind?_eq_some hf)

theorem append_comma_ne_null (prev x : String) :
    ToLower ((prev ++ ",") ++ x) ≠ "null" := by
  apply ToLower_ne_null_of_comma
  show ',' ∈ (prev.data ++ [','] ++ x.data)
  simp

/-- The value written by the list-item branch of `fmLine` never lowers to
`null`: with a previous value it contains a comma, without one it is a
null-normalized value. -/
theorem joined_value_ne_null (prev x : String) :
    ToLower ((if !(prev == "") then prev ++ "," else prev) ++
      NormalizeNullToken (Unquote x)) ≠ "null" := by
  by_cases hp : (prev == "") = true
  · have hp' : prev = "" := by simpa using hp
    subst hp'
    have hcond : (!(("" : String) == "")) = false := by decide
    rw [hcond]
    simp only [Bool.false_eq_true, if_false]
    have heq : ("" : String) ++ NormalizeNullToken (Unquote x) =
        NormalizeNullToken (Unquote x) := rfl
    rw [heq]
    exact ToLower_NormalizeNullToken_ne_null _
  · rw [if_pos (by simpa using hp)]
    exact append_comma_ne_null prev _

theorem nullSafe_assocSet (m : List (String × String)) (k v : String)
    (h : NullSafeMap m) (hv : ToLower v ≠ "null") :
    NullSafeMap (assocSet m k v) := by
  intro e he
  rcases assocSet_mem he with h1 | h1
  · exact h e h1
  · rw [h1]
    exact hv

set_option maxHeartbeats 1000000 in
theorem fmLine_nullsafe (raw currentKey : String) (m : List (String × String))
    (h : NullSafeMap m) : NullSafeMap (fmLine raw currentKey m).2 := by
  unfold fmLine
  simp only []
  by_cases h1 : Trim raw = ""
  · rw [if_pos h1]; exact h
  · rw [if_neg h1]
    by_cases h2 : (raw.data.contains ':' && !raw.isEmpty &&
        !(raw.data.headD ' ' == ' ') && !(raw.data.headD ' ' == '\t')) = true
    · rw [if_pos h2]
      exact nullSafe_assocSet _ _ _ h (ToLower_NormalizeNullToken_ne_null _)
    · rw [if_neg h2]
      by_cases h3 : (!(currentKey == "") &&
          (StartsWith raw "  -" || StartsWith raw "- ")) = true
      · rw [if_pos h3]
        by_cases h4 : (!((if StartsWith (Trim raw) "- " then
              Trim (String.mk ((Trim raw).data.drop 2))
            else if StartsWith (Trim raw) "-" then
              Trim (String.mk ((Trim raw).data.drop 1))
            else if StartsWith (Trim raw) "  -" then
              Trim (String.mk ((Trim raw).data.drop 3))
            else Trim raw) == "")) = true
        · rw [if_pos h4]
          exact nullSafe_assocSet _ _ _ h (joined_value_ne_null _ _)
        · rw [if_neg h4]
          exact h
      · rw [if_neg h3]
        exact h

theorem fmLoop_nullsafe (ls : List String) :
    ∀ (key : String) (m : List (String × String)), NullSafeMap m →
      NullSafeMap (fmLoop ls key m).2 := by
  induction ls with
  | nil => intro key m h; exact h
  | cons raw rest ih =>
    intro key m h
    unfold fmLoop
    by_cases h1 : Trim raw = "---"
    · rw [if_pos h1]; exact h
    · rw [if_neg h1]
      exact ih _ _ (fmLine_nullsafe raw key m h)

theorem ParseFrontmatterMap_nullsafe (content : String) :
    NullSafeMap (ParseFrontmatterMap content).map := by
  unfold ParseFrontmatterMap
  cases SplitLines content with
  | nil => intro e he; simp at he
  | cons first rest =>
    simp only []
    have hsafe : NullSafeMap (fmLoop rest "" []).2 :=
      fmLoop_nullsafe rest "" [] (fun e he => by simp at he)
    by_cases h1 : Trim first ≠ "---"
    · rw [if_pos h1]; intro e he; simp at he
    · rw [if_neg h1]
      by_cases h2 : (!(fmLoop rest "" []).1) = true
      · rw [if_pos h2]; exact hsafe
      · rw [if_neg h2]; exact hsafe

theorem ParseItem_invalid_empty_id (fs : FileSys) (itemPath productRoot : FsPath) :
    (ParseItem fs itemPath productRoot).valid = false →
    (ParseItem fs itemPath productRoot).id = "" := by
  unfold ParseItem
  simp only []
  cases hfile : fs.fileAt itemPath with
  | none => intro _; rfl
  | some f =>
    simp only []
    by_cases hok : (!(ParseFrontmatterMap f.content).ok) = true
    · rw [if_pos hok]
      intro _; rfl
    · rw [if_neg hok]
      by_cases hid : (fmGet (ParseFrontmatterMap f.content).map "id" == "") = true
      · rw [if_pos hid]
        intro _
        simpa using hid
      · rw [if_neg hid]
        by_cases hnull :
            (ToLower (fmGet (ParseFrontmatterMap f.content).map "id") == "null") = true
        · exact absurd (by simpa using hnull)
            (fmGet_ne_null (ParseFrontmatterMap_nullsafe f.content) "id")
        · rw [if_neg hnull]
          intro hv
          simp at hv

theorem ParseDecision_invalid_empty_id (fs : FileSys)
    (decisionPath productRoot : FsPath) :
    (ParseDecision fs decisionPath productRoot).valid = false →
    (ParseDecision fs decisionPath productRoot).id = "" := by
  unfold ParseDecision
  simp only []
  cases hfile : fs.fileAt decisionPath with
  | none => intro _; rfl
  | some f =>
    simp only []
    by_cases hok : (!(ParseFrontmatterMap f.content).ok) = true
    · rw [if_pos hok]
      intro _; rfl
    · rw [if_neg hok]
      intro hv
      simp at hv

theorem ParseTopicManifest_invalid_empty_id (fs : FileSys)
    (topicManifestPath backlogRoot : FsPath) :
    (ParseTopicManifest fs topicManifestPath backlogRoot).valid = false →
    (ParseTopicManifest fs topicManifestPath backlogRoot).id = "" := by
  unfold ParseTopicManifest
  simp only []
  cases hfile : fs.fileAt topicManifestPath with
  | none => intro _; rfl
  | some f =>
    simp only []
    cases hjson : f.json with
    | none => intro _; rfl
    | some manifest =>
      intro hv
      simp at hv

theorem ParseWorksetManifest_invalid_empty_id (fs : FileSys)
    (worksetManifestPath backlogRoot : FsPath) :
    (ParseWorksetManifest fs worksetManifestPath backlogRoot).valid = false →
    (ParseWorksetManifest fs worksetManifestPath backlogRoot).id = "" := by
  unfold ParseWorksetManifest
  simp only []
  cases hfile : fs.fileAt worksetManifestPath with
  | none => intro _; rfl
  | some f =>
    simp only []
    cases hjson : f.json with
    | none => intro _; rfl
    | some manifest =>
      intro hv
      simp at hv

/-- Every record of the accumulator is either valid or carries an empty id. -/
def InvalidEmptyId (acc : List ItemRecord × List String) : Prop :=
  ∀ x ∈ acc.1, x.valid = false → x.id = ""

theorem recordStep_invalidEmptyId (cat : String)
    (acc : List ItemRecord × List String) (item : ItemRecord)
    (hacc : InvalidEmptyId acc) (hitem : item.valid = false → item.id = "") :
    InvalidEmptyId (recordStep cat acc item) := by
  intro x hx
  unfold recordStep at hx
  rcases List.mem_append.mp hx with h1 | h1
  · exact hacc x h1
  · rw [List.mem_singleton.mp h1]
    exact hitem

theorem foldl_invalidEmptyId {β : Type}
    (step : (List ItemRecord × List String) → β → List ItemRecord × List String)
    (hstep : ∀ acc b, InvalidEmptyId acc → InvalidEmptyId (step acc b)) :
    ∀ (l : List β) acc, InvalidEmptyId acc → InvalidEmptyId (l.foldl step acc) := by
  intro l
  induction l with
  | nil => intro acc h; exact h
  | cons b rest ih =>
    intro acc h
    rw [List.foldl_cons]
    exact ih _ (hstep acc b h)

theorem scanItemsStage_invalidEmptyId (fs : FileSys) (productRoot : FsPath)
    (acc : List ItemRecord × List String) (h : InvalidEmptyId acc) :
    InvalidEmptyId (scanItemsStage fs productRoot acc) := by
  unfold scanItemsStage
  exact foldl_invalidEmptyId _
    (fun a f ha => recordStep_invalidEmptyId _ a _ ha
      (ParseItem_invalid_empty_id fs f.path productRoot)) _ acc h

theorem scanDecisionsStage_invalidEmptyId (fs : FileSys) (productRoot : FsPath)
    (acc : List ItemRecord × List String) (h : InvalidEmptyId acc) :
    InvalidEmptyId (scanDecisionsStage fs productRoot acc) := by
  unfold scanDecisionsStage
  by_cases hc : fs.pathExists (productRoot ++ ["decisions"]) = true
  · rw [if_pos hc]
    exact foldl_invalidEmptyId _
      (fun a f ha => recordStep_invalidEmptyId _ a _ ha
        (ParseDecision_invalid_empty_id fs f.path productRoot)) _ acc h
  · rw [if_neg hc]
    exact h

theorem scanTopicsStage_invalidEmptyId (fs : FileSys) (backlogRoot : FsPath)
    (acc : List ItemRecord × List String) (h : InvalidEmptyId acc) :
    InvalidEmptyId (scanTopicsStage fs backlogRoot acc) := by
  unfold scanTopicsStage
  by_cases hc : fs.pathExists (backlogRoot ++ ["topics"]) = true
  · rw [if_pos hc]
    refine foldl_invalidEmptyId _ (fun a d ha => ?_) _ acc h
    by_cases hm : fs.pathExists (d ++ ["manifest.json"]) = true
    · rw [if_pos hm]
      exact recordStep_invalidEmptyId _ a _ ha
        (ParseTopicManifest_invalid_empty_id fs _ backlogRoot)
    · rw [if_neg hm]
      exact ha
  · rw [if_neg hc]
    exact h

theorem scanWorksetsStage_invalidEmptyId (fs : FileSys) (backlogRoot : FsPath)
    (acc : List ItemRecord × List String) (h : InvalidEmptyId acc) :
    InvalidEmptyId (scanWorksetsStage fs backlogRoot acc) := by
  unfold scanWorksetsStage
  by_cases hc : fs.pathExists (backlogRoot ++ ["worksets"]) = true
  · rw [if_pos hc]
    refine foldl_invalidEmptyId _ (fun a d ha => ?_) _ acc h
    by_cases hm : fs.pathExists (d ++ ["manifest.json"]) = true
    · rw [if_pos hm]
      exact recordStep_invalidEmptyId _ a _ ha
        (ParseWorksetManifest_invalid_empty_id fs _ backlogRoot)
    · rw [if_neg hm]
      exact ha
  · rw [if_neg hc]
    exact h

/-- The shape of every rebuilt cache: its index maps are computed from its
item list, and every invalid item of that list has an empty id. -/
theorem RebuildCache_fields (fs : FileSys) (productsRoot : FsPath)
    (product : String) :
    ∃ items : List ItemRecord,
      (RebuildCache fs productsRoot product).allItems = items ∧
      (RebuildCache fs productsRoot product).idIndexes = computeIndexes items ∧
      (RebuildCache fs productsRoot product).primaryById =
        computePrimaries items (computeIndexes items) ∧
      ∀ x ∈ items, x.valid = false → x.id = "" := by
  unfold RebuildCache
  simp only []
  by_cases hdir : (!fs.pathExists (productsRoot ++ [product] ++ ["items"])) = true
  · rw [if_pos hdir]
    exact ⟨[], rfl, rfl, rfl, fun x hx => absurd hx (List.not_mem_nil x)⟩
  · rw [if_neg hdir]
    refine ⟨_, rfl, rfl, rfl, ?_⟩
    exact scanWorksetsStage_invalidEmptyId fs _ _
      (scanTopicsStage_invalidEmptyId fs _ _
        (scanDecisionsStage_invalidEmptyId fs _ _
          (scanItemsStage_invalidEmptyId fs _ _
            (fun x hx => absurd hx (List.not_mem_nil x)))))

theorem specPrimary_mem (items : List ItemRecord) :
    ∀ (rest : List Nat) (first : Nat) (S : List Nat), first ∈ S →
      (∀ b ∈ rest, b ∈ S) → specPrimary items first rest ∈ S := by
  intro rest
  induction rest with
  | nil => intro first S h _; exact h
  | cons b bs ih =>
    intro first S hf hl
    unfold specPrimary
    rw [List.foldl_cons]
    have hstep : (if strLt (items.getD first default).updated
          (items.getD b default).updated ||
          ((items.getD b default).updated == (items.getD first default).updated &&
            strLt (items.getD b default).relativePath
              (items.getD first default).relativePath) then b
        else first) ∈ S := by
      by_cases hc : (strLt (items.getD first default).updated
          (items.getD b default).updated ||
          ((items.getD b default).updated == (items.getD first default).updated &&
            strLt (items.getD b default).relativePath
              (items.getD first default).relativePath)) = true
      · rw [if_pos hc]; exact hl b (List.mem_cons_self _ _)
      · rw [if_neg hc]; exact hf
    have := ih _ S hstep (fun c hc => hl c (List.mem_cons_of_mem _ hc))
    unfold specPrimary at this
    exact this

theorem pickPrimary_mem (items : List ItemRecord) (idxs : List Nat)
    (h : idxs ≠ []) : pickPrimary items idxs ∈ idxs := by
  cases idxs with
  | nil => exact absurd rfl h
  | cons h0 t =>
    rw [pickPrimary_eq_specPrimary]
    exact specPrimary_mem items t h0 (h0 :: t) (List.mem_cons_self _ _)
      (fun b hb => List.mem_cons_of_mem _ hb)

theorem primaryLoop_mem (items : List ItemRecord)
    (es : List (String × List Nat)) :
    ∀ (acc : List (String × Nat)) (e : String × Nat), e ∈ primaryLoop items acc es →
      e ∈ acc ∨ ∃ idxs, (e.1, idxs) ∈ es ∧ idxs ≠ [] ∧ e.2 = pickPrimary items idxs := by
  induction es with
  | nil => intro acc e he; left; exact he
  | cons x rest ih =>
    intro acc e he
    unfold primaryLoop at he
    by_cases hv : (x.2.isEmpty : Bool) = true
    · rw [if_pos hv] at he
      rcases ih _ _ he with h1 | ⟨idxs, h2, h3, h4⟩
      · left; exact h1
      · right; exact ⟨idxs, List.mem_cons_of_mem _ h2, h3, h4⟩
    · rw [if_neg hv] at he
      have hxne : x.2 ≠ [] := by
        intro hc
        rw [hc] at hv
        exact hv rfl
      rcases ih _ _ he with h1 | ⟨idxs, h2, h3, h4⟩
      · rcases assocSet_mem h1 with h2 | h2
        · left; exact h2
        · right
          refine ⟨x.2, ?_, hxne, ?_⟩
          · rw [h2]
            simp only []
            have : (x.1, x.2) = x := rfl
            rw [this]
            exact List.mem_cons_self _ _
          · rw [h2]
      · right; exact ⟨idxs, List.mem_cons_of_mem _ h2, h3, h4⟩

theorem invalid_not_indexed_core (items : List ItemRecord)
    (hids : ∀ x ∈ items, x.valid = false → x.id = "") (i : Nat)
    (hinv : (items.getD i default).valid = false) :
    (∀ e ∈ computeIndexes items, i ∉ e.2) ∧
    (∀ e ∈ computePrimaries items (computeIndexes items), e.2 ≠ i) := by
  have hnd : (assocKeys (computeIndexes items)).Nodup :=
    indexLoop_keys_nodup items [] 0 (by simp)
  have hmain : ∀ e ∈ computeIndexes items, i ∉ e.2 := by
    rintro ⟨k, idxs⟩ he hi
    have hfind : assocFind? (indexLoop [] 0 items) k = some idxs :=
      assocFind?_of_mem_nodup hnd he
    have hne : k ≠ "" := by
      intro hc
      subst hc
      rw [indexLoop_lookup_empty items [] 0 rfl] at hfind
      exact Option.noConfusion hfind
    have hchar := indexLoop_lookup items [] 0 k hne
    rw [hfind] at hchar
    simp only [Option.getD_some, assocFind?_nil, Option.getD_none,
      List.nil_append] at hchar
    rw [hchar] at hi
    obtain ⟨-, hlen, hid⟩ := (mem_idPositions k items 0 i).mp hi
    rw [Nat.sub_zero] at hlen hid
    have hmem : items.getD i default ∈ items := by
      rw [List.getD_eq_getElem?_getD, List.getElem?_eq_getElem hlen]
      exact List.getElem_mem hlen
    have hempty : (items.getD i default).id = "" := hids _ hmem hinv
    rw [hempty] at hid
    exact hne hid.symm
  refine ⟨hmain, ?_⟩
  intro e he
  rcases primaryLoop_mem items (computeIndexes items) [] e he with h1 | ⟨idxs, h2, h3, h4⟩
  · simp at h1
  · intro hc
    have hpm : pickPrimary items idxs ∈ idxs := pickPrimary_mem items idxs h3
    rw [← h4, hc] at hpm
    exact hmain (e.1, idxs) h2 hpm

/-- C4: in every rebuilt product cache, the position of an invalid record
never appears in `idIndexes` and is never chosen as a primary.  (In this code
every invalid record in fact carries an empty id: the frontmatter null
normalization makes the non-empty `null` id case unreachable.) -/
theorem invalid_records_not_indexed (fs : FileSys) (productsRoot : FsPath)
    (product : String) (i : Nat)
    (hinv : ((RebuildCache fs productsRoot product).allItems.getD i default).valid = false) :
    (∀ e ∈ (RebuildCache fs productsRoot product).idIndexes, i ∉ e.2) ∧
    (∀ e ∈ (RebuildCache fs productsRoot product).primaryById, e.2 ≠ i) := by
  obtain ⟨items, h1, h2, h3, h4⟩ := RebuildCache_fields fs productsRoot product
  rw [h1] at hinv
  rw [h2, h3]
  exact invalid_not_indexed_core items h4 i hinv

/-- Concrete filesystem for the C4 witness: one item file with an empty id
(the id value `NULL` is null-normalized away), yielding an invalid record. -/
def nullFs : FileSys :=
  { dirs := [["ws"], ["ws", "products"], ["ws", "products", "p"],
             ["ws", "products", "p", "items"]]
  , files := [ { path := ["ws", "products", "p", "items", "x.md"]
               , content := "---\nid: NULL\n---\n", mtime := 2 } ] }

/-- Witness for C4: the invalid record at position 0 of the rebuilt cache is
excluded from indexing and from primary selection. -/
theorem invalid_records_not_indexed_witness :
    (∀ e ∈ (RebuildCache nullFs ["ws", "products"] "p").idIndexes, 0 ∉ e.2) ∧
    (∀ e ∈ (RebuildCache nullFs ["ws", "products"] "p").primaryById, e.2 ≠ 0) :=
  invalid_records_not_indexed nullFs ["ws", "products"] "p" 0 (by decide)

/-! ## C2: a pure two-cycle in the tree builder -/

/-- Concrete product with exactly two hierarchy-eligible items forming the
cycle A to B to A. -/
def cycleFs : FileSys :=
  { dirs := [["ws"], ["ws", "products"], ["ws", "products", "p"],
             ["ws", "products", "p", "items"]]
  , files :=
      [ { path := ["ws", "products", "p", "items", "a.md"]
        , content := "---\nid: A\ntype: Task\nparent: B\n---\nbody a", mtime := 1 }
      , { path := ["ws", "products", "p", "items", "b.md"]
        , content := "---\nid: B\ntype: Task\nparent: A\n---\nbody b", mtime := 1 } ] }

def cycleSt : ServiceState := { productsRoot := ["ws", "products"] }

/-- C2 is a code bug: on the cyclic pair the service lists both items as
valid Tasks, yet `BuildTree` returns an empty forest and no warning at all —
neither node qualifies as a root and nothing else reaches them, so the cycle
warning is never emitted and both items are silently dropped, where the spec
promises a cycle warning with both nodes retained. -/
theorem cycle_items_dropped :
    (ListItems cycleFs cycleSt "p" false).1.error = none ∧
    (ListItems cycleFs cycleSt "p" false).1.items.length = 2 ∧
    (BuildTree cycleFs cycleSt "p" false).1.error = none ∧
    (BuildTree cycleFs cycleSt "p" false).1.roots = [] ∧
    (BuildTree cycleFs cycleSt "p" false).1.warnings = [] := by
  exact ⟨by decide, by decide, by decide, rfl, by decide⟩

/-! ## C7: roots and orphans of the tree builder -/

theorem mem_setInsert (l : List String) (x y : String) :
    y ∈ setInsert l x ↔ y ∈ l ∨ y = x := by
  unfold setInsert
  by_cases h : l.contains x
  · rw [if_pos h]
    constructor
    · exact Or.inl
    · rintro (h1 | h1)
      · exact h1
      · subst h1
        simpa using h
  · rw [if_neg h]
    simp

theorem nodup_map_inj {α β : Type} [DecidableEq β] (f : α → β) (l : List α)
    (hnd : (l.map f).Nodup) :
    ∀ a ∈ l, ∀ b ∈ l, f a = f b → a = b := by
  induction l with
  | nil => intro a ha; simp at ha
  | cons x rest ih =>
    rw [List.map_cons, List.nodup_cons] at hnd
    intro a ha b hb hf
    rcases List.mem_cons.mp ha with rfl | ha2 <;>
      rcases List.mem_cons.mp hb with rfl | hb2
    · rfl
    · exact absurd (hf ▸ List.mem_map.mpr ⟨b, hb2, rfl⟩) hnd.1
    · exact absurd (hf ▸ List.mem_map.mpr ⟨a, ha2, rfl⟩) hnd.1
    · exact ih hnd.2 a ha2 b hb2 hf

theorem mem_allIdsLoop (l : List ItemView) :
    ∀ (acc : List String) (x : String),
      x ∈ allIdsLoop acc l ↔ x ∈ acc ∨ x ∈ l.map (fun z => z.id) := by
  induction l with
  | nil => intro acc x; simp [allIdsLoop]
  | cons z rest ih =>
    intro acc x
    unfold allIdsLoop
    rw [ih, mem_setInsert]
    simp
    tauto

theorem mem_buildAllIds (items : List ItemView) (x : String) :
    x ∈ buildAllIds items ↔ x ∈ (treeEligible items).map (fun z => z.id) := by
  unfold buildAllIds
  rw [mem_allIdsLoop]
  simp

theorem isSome_assocFind?_assocSet {α : Type} (m : List (String × α))
    (k k' : String) (v : α) :
    (assocFind? (assocSet m k v) k').isSome ↔
      (assocFind? m k').isSome ∨ k' = k := by
  by_cases h : k' = k
  · subst h
    rw [assocFind?_assocSet_self]
    simp
  · rw [assocFind?_assocSet_ne m k k' v h]
    simp [h]

theorem isSome_byIdLoop (l : List ItemView) :
    ∀ (acc : List (String × TreeNode)) (k : String),
      (assocFind? (byIdLoop acc l) k).isSome ↔
        (assocFind? acc k).isSome ∨ k ∈ l.map (fun z => z.id) := by
  induction l with
  | nil => intro acc k; simp [byIdLoop]
  | cons z rest ih =>
    intro acc k
    unfold byIdLoop
    rw [ih, isSome_assocFind?_assocSet]
    simp
    tauto

theorem isSome_buildById (items : List ItemView) (k : String) :
    (assocFind? (buildById items) k).isSome ↔
      k ∈ (treeEligible items).map (fun z => z.id) := by
  unfold buildById
  rw [isSome_byIdLoop]
  simp

theorem byIdLoop_value_id (l : List ItemView) :
    ∀ (acc : List (String × TreeNode)), (∀ e ∈ acc, e.2.nodeId = e.1) →
      ∀ e ∈ byIdLoop acc l, e.2.nodeId = e.1 := by
  induction l with
  | nil => intro acc h; exact h
  | cons z rest ih =>
    intro acc h
    unfold byIdLoop
    refine ih _ ?_
    intro e he
    rcases assocSet_mem he with h1 | h1
    · exact h e h1
    · rw [h1]
      rfl

theorem buildById_value_id (items : List ItemView) :
    ∀ e ∈ buildById items, e.2.nodeId = e.1 :=
  byIdLoop_value_id (treeEligible items) [] (fun e he => absurd he (List.not_mem_nil e))

theorem childLoop_lookup (l : List ItemView) :
    ∀ (allIds : List String) (acc : List (String × List String) × List String)
      (k y : String),
      y ∈ (assocFind? (childLoop allIds acc l).1 k).getD [] ↔
        y ∈ (assocFind? acc.1 k).getD [] ∨
          ∃ z ∈ l, z.id = y ∧ z.parent = k ∧ k ≠ "" := by
  induction l with
  | nil => intro allIds acc k y; simp [childLoop]
  | cons z rest ih =>
    intro allIds acc k y
    unfold childLoop
    by_cases hp : (z.parent == "") = true
    · rw [if_pos hp]
      rw [ih]
      have hp' : z.parent = "" := by simpa using hp
      constructor
      · rintro (h1 | h1)
        · exact Or.inl h1
        · right
          obtain ⟨w, hw, h2, h3, h4⟩ := h1
          exact ⟨w, List.mem_cons_of_mem _ hw, h2, h3, h4⟩
      · rintro (h1 | ⟨w, hw, h2, h3, h4⟩)
        · exact Or.inl h1
        · rcases List.mem_cons.mp hw with rfl | hw2
          · rw [hp'] at h3
            exact absurd h3.symm h4
          · exact Or.inr ⟨w, hw2, h2, h3, h4⟩
    · rw [if_neg hp]
      rw [ih]
      have hp' : z.parent ≠ "" := by simpa using hp
      by_cases hk : z.parent = k
      · rw [hk, assocFind?_assocSet_self]
        simp only [Option.getD_some]
        constructor
        · rintro (h1 | h1)
          · rcases List.mem_append.mp h1 with h2 | h2
            · exact Or.inl h2
            · right
              refine ⟨z, List.mem_cons_self _ _, ?_, hk, hk ▸ hp'⟩
              exact (List.mem_singleton.mp h2).symm
          · obtain ⟨w, hw, h2, h3, h4⟩ := h1
            exact Or.inr ⟨w, List.mem_cons_of_mem _ hw, h2, h3, h4⟩
        · rintro (h1 | ⟨w, hw, h2, h3, h4⟩)
          · exact Or.inl (List.mem_append.mpr (Or.inl h1))
          · rcases List.mem_cons.mp hw with rfl | hw2
            · left
              exact List.mem_append.mpr (Or.inr (List.mem_singleton.mpr h2.symm))
            · exact Or.inr ⟨w, hw2, h2, h3, h4⟩
      · rw [assocFind?_assocSet_ne acc.1 z.parent k _ (fun hc => hk hc.symm)]
        constructor
        · rintro (h1 | ⟨w, hw, h2, h3, h4⟩)
          · exact Or.inl h1
          · exact Or.inr ⟨w, List.mem_cons_of_mem _ hw, h2, h3, h4⟩
        · rintro (h1 | ⟨w, hw, h2, h3, h4⟩)
          · exact Or.inl h1
          · rcases List.mem_cons.mp hw with rfl | hw2
            · exact absurd h3 hk
            · exact Or.inr ⟨w, hw2, h2, h3, h4⟩

theorem childLoop_warnings_mono (l : List ItemView) :
    ∀ (allIds : List String) (acc : List (String × List String) × List String)
      (w : String), w ∈ acc.2 → w ∈ (childLoop allIds acc l).2 := by
  induction l with
  | nil => intro allIds acc w h; exact h
  | cons z rest ih =>
    intro allIds acc w h
    unfold childLoop
    by_cases hp : (z.parent == "") = true
    · rw [if_pos hp]; exact ih _ _ _ h
    · rw [if_neg hp]
      refine ih _ _ _ ?_
      by_cases hc : (allIds.contains z.parent) = true
      · rw [if_pos hc]; exact h
      · rw [if_neg hc]
        simp only []
        exact List.mem_append.mpr (Or.inl h)

theorem childLoop_orphan_warning (l : List ItemView) :
    ∀ (allIds : List String) (acc : List (String × List String) × List String)
      (z : ItemView), z ∈ l → z.parent ≠ "" → (allIds.contains z.parent) = false →
      ("Orphan parent missing for item " ++ z.id ++ ": " ++ z.parent) ∈
        (childLoop allIds acc l).2 := by
  induction l with
  | nil => intro allIds acc z hz; simp at hz
  | cons x rest ih =>
    intro allIds acc z hz hp hc
    unfold childLoop
    rcases List.mem_cons.mp hz with rfl | hz2
    · rw [if_neg (by simpa using hp),
        if_neg (by rw [hc]; exact Bool.false_ne_true)]
      apply childLoop_warnings_mono
      simp
    · by_cases hxp : (x.parent == "") = true
      · rw [if_pos hxp]
        exact ih _ _ z hz2 hp hc
      · rw [if_neg hxp]
        exact ih _ _ z hz2 hp hc

/-- An id reachable through a child edge of the DFS: it occurs in the child
list of some key present in `byId`. -/
def childOf (byId : List (String × TreeNode))
    (childIds : List (String × List String)) (y : String) : Prop :=
  ∃ k, (assocFind? byId k).isSome = true ∧ y ∈ (assocFind? childIds k).getD []

theorem appendKids_nodeId (n : TreeNode) (ks : List TreeNode) :
    (appendKids n ks).nodeId = n.nodeId := by
  cases n
  rfl

theorem attachChildren_nodeId (byId : List (String × TreeNode))
    (childIds : List (String × List String)) (fuel : Nat) (st : TreeSt)
    (nodeId : String) (node : TreeNode) :
    (attachChildren byId childIds fuel st nodeId node).1.nodeId = node.nodeId := by
  cases fuel with
  | zero => rw [attachChildren]
  | succ fuel' =>
    rw [attachChildren]
    simp only []
    exact appendKids_nodeId _ _

theorem attachList_visited_sub_of (byId : List (String × TreeNode))
    (childIds : List (String × List String)) (fuel : Nat)
    (hAC : ∀ (st : TreeSt) (nodeId : String) (node : TreeNode),
      (assocFind? byId nodeId).isSome = true →
      ∀ y ∈ (attachChildren byId childIds fuel st nodeId node).2.visited,
        y ∈ st.visited ∨ y = nodeId ∨ childOf byId childIds y) :
    ∀ (kids : List String) (st : TreeSt),
      (∀ c ∈ kids, childOf byId childIds c) →
      ∀ y ∈ (attachList byId childIds fuel kids st).2.visited,
        y ∈ st.visited ∨ childOf byId childIds y := by
  intro kids
  induction kids with
  | nil =>
    intro st _ y hy
    rw [attachList] at hy
    exact Or.inl hy
  | cons c rest ih =>
    intro st hkids y hy
    rw [attachList] at hy
    cases hfind : assocFind? byId c with
    | none =>
      rw [hfind] at hy
      simp only [] at hy
      exact ih st (fun x hx => hkids x (List.mem_cons_of_mem _ hx)) y hy
    | some childNode =>
      rw [hfind] at hy
      simp only [] at hy
      by_cases hvis : (st.visiting.contains c) = true
      · rw [if_pos hvis] at hy
        rcases ih _ (fun x hx => hkids x (List.mem_cons_of_mem _ hx)) y hy with h1 | h1
        · exact Or.inl h1
        · exact Or.inr h1
      · rw [if_neg hvis] at hy
        simp only [] at hy
        rcases ih _ (fun x hx => hkids x (List.mem_cons_of_mem _ hx)) y hy with h1 | h1
        · rcases hAC st c childNode (by rw [hfind]; rfl) y h1 with h2 | h2 | h2
          · exact Or.inl h2
          · exact Or.inr (h2 ▸ hkids c (List.mem_cons_self _ _))
          · exact Or.inr h2
        · exact Or.inr h1

theorem attachChildren_visited_sub (byId : List (String × TreeNode))
    (childIds : List (String × List String)) :
    ∀ (fuel : Nat) (st : TreeSt) (nodeId : String) (node : TreeNode),
      (assocFind? byId nodeId).isSome = true →
      ∀ y ∈ (attachChildren byId childIds fuel st nodeId node).2.visited,
        y ∈ st.visited ∨ y = nodeId ∨ childOf byId childIds y := by
  intro fuel
  induction fuel with
  | zero =>
    intro st nodeId node _ y hy
    rw [attachChildren] at hy
    exact Or.inl hy
  | succ fuel ih =>
    intro st nodeId node hsome y hy
    rw [attachChildren] at hy
    simp only [] at hy
    have hAL := attachList_visited_sub_of byId childIds fuel ih
    rcases hAL ((assocFind? childIds nodeId).getD [])
        { st with visiting := setInsert st.visiting nodeId
                  visited := setInsert st.visited nodeId }
        (fun c hc => ⟨nodeId, hsome, hc⟩) y hy with h1 | h1
    · rcases (mem_setInsert st.visited nodeId y).mp h1 with h2 | h2
      · exact Or.inl h2
      · exact Or.inr (Or.inl h2)
    · exact Or.inr (Or.inr h1)

theorem attachList_warnings_mono_of (byId : List (String × TreeNode))
    (childIds : List (String × List String)) (fuel : Nat)
    (hAC : ∀ (st : TreeSt) (nodeId : String) (node : TreeNode) (w : String),
      w ∈ st.warnings →
      w ∈ (attachChildren byId childIds fuel st nodeId node).2.warnings) :
    ∀ (kids : List String) (st : TreeSt) (w : String), w ∈ st.warnings →
      w ∈ (attachList byId childIds fuel kids st).2.warnings := by
  intro kids
  induction kids with
  | nil =>
    intro st w hw
    rw [attachList]
    exact hw
  | cons c rest ih =>
    intro st w hw
    rw [attachList]
    cases hfind : assocFind? byId c with
    | none =>
      simp only []
      exact ih st w hw
    | some childNode =>
      simp only []
      by_cases hvis : (st.visiting.contains c) = true
      · rw [if_pos hvis]
        refine ih _ w ?_
        simp only []
        exact List.mem_append.mpr (Or.inl hw)
      · rw [if_neg hvis]
        simp only []
        exact ih _ w (hAC st c childNode w hw)

theorem attachChildren_warnings_mono (byId : List (String × TreeNode))
    (childIds : List (String × List String)) :
    ∀ (fuel : Nat) (st : TreeSt) (nodeId : String) (node : TreeNode) (w : String),
      w ∈ st.warnings →
      w ∈ (attachChildren byId childIds fuel st nodeId node).2.warnings := by
  intro fuel
  induction fuel with
  | zero =>
    intro st nodeId node w hw
    rw [attachChildren]
    exact hw
  | succ fuel ih =>
    intro st nodeId node w hw
    rw [attachChildren]
    simp only []
    exact attachList_warnings_mono_of byId childIds fuel ih _ _ w hw

theorem contains_iff_mem (l : List String) (x : String) :
    l.contains x = true ↔ x ∈ l := by
  induction l with
  | nil => simp
  | cons a rest ih =>
    rw [List.contains_cons, Bool.or_eq_true, ih]
    constructor
    · rintro (h | h)
      · exact List.mem_cons.mpr (Or.inl (by simpa using h))
      · exact List.mem_cons_of_mem _ h
    · intro h
      rcases List.mem_cons.mp h with rfl | h2
      · exact Or.inl (by simp)
      · exact Or.inr h2

/-- The root test of the root loop, as the code writes it. -/
def isRootB (items : List ItemView) (z : ItemView) : Bool :=
  z.parent == "" || !(buildAllIds items).contains z.parent

theorem isRootB_iff (items : List ItemView) (z : ItemView) :
    isRootB items z = true ↔
      (z.parent = "" ∨ z.parent ∉ (treeEligible items).map (fun w => w.id)) := by
  unfold isRootB
  rw [Bool.or_eq_true, beq_iff_eq, Bool.not_eq_true']
  constructor
  · rintro (h | h)
    · exact Or.inl h
    · right
      intro hc
      rw [(contains_iff_mem _ _).mpr ((mem_buildAllIds items z.parent).mpr hc)] at h
      exact Bool.noConfusion h
  · rintro (h | h)
    · exact Or.inl h
    · right
      by_cases hc : (buildAllIds items).contains z.parent = true
      · exact absurd ((mem_buildAllIds items z.parent).mp
          ((contains_iff_mem _ _).mp hc)) h
      · simpa using hc

theorem rootLoop_roots_mono (byId : List (String × TreeNode))
    (childIds : List (String × List String)) (allIds : List String) (fuel : Nat)
    (l : List ItemView) :
    ∀ (acc : List TreeNode × TreeSt) (n : TreeNode), n ∈ acc.1 →
      n ∈ (rootLoop byId childIds allIds fuel acc l).1 := by
  induction l with
  | nil => intro acc n h; exact h
  | cons it rest ih =>
    intro acc n h
    rw [rootLoop]
    by_cases hc : ((it.parent == "" || !allIds.contains it.parent) &&
        !acc.2.visited.contains it.id) = true
    · rw [if_pos hc]
      exact ih _ n (List.mem_append.mpr (Or.inl h))
    · rw [if_neg hc]
      exact ih _ n h

theorem rootLoop_warnings_mono (byId : List (String × TreeNode))
    (childIds : List (String × List String)) (allIds : List String) (fuel : Nat)
    (l : List ItemView) :
    ∀ (acc : List TreeNode × TreeSt) (w : String), w ∈ acc.2.warnings →
      w ∈ (rootLoop byId childIds allIds fuel acc l).2.warnings := by
  induction l with
  | nil => intro acc w h; exact h
  | cons it rest ih =>
    intro acc w h
    rw [rootLoop]
    by_cases hc : ((it.parent == "" || !allIds.contains it.parent) &&
        !acc.2.visited.contains it.id) = true
    · rw [if_pos hc]
      exact ih _ w (attachChildren_warnings_mono byId childIds fuel acc.2 it.id _ w h)
    · rw [if_neg hc]
      exact ih _ w h

theorem root_node_id (byId : List (String × TreeNode))
    (hval : ∀ e ∈ byId, e.2.nodeId = e.1) (x : String) :
    ((assocFind? byId x).getD (TreeNode.node x "" "" "" "" [])).nodeId = x := by
  cases hf : assocFind? byId x with
  | none => rfl
  | some n' => exact hval (x, n') (assocFind?_eq_some hf)

theorem rootLoop_roots_from (byId : List (String × TreeNode))
    (childIds : List (String × List String)) (allIds : List String) (fuel : Nat)
    (hval : ∀ e ∈ byId, e.2.nodeId = e.1) (l : List ItemView) :
    ∀ (acc : List TreeNode × TreeSt) (n : TreeNode),
      n ∈ (rootLoop byId childIds allIds fuel acc l).1 →
      n ∈ acc.1 ∨ ∃ z ∈ l, z.id = n.nodeId ∧
        (z.parent == "" || !allIds.contains z.parent) = true := by
  induction l with
  | nil => intro acc n h; exact Or.inl h
  | cons it rest ih =>
    intro acc n h
    rw [rootLoop] at h
    by_cases hc : ((it.parent == "" || !allIds.contains it.parent) &&
        !acc.2.visited.contains it.id) = true
    · rw [if_pos hc] at h
      rcases ih _ n h with h1 | ⟨z, hz, h2, h3⟩
      · rcases List.mem_append.mp h1 with h2 | h2
        · exact Or.inl h2
        · right
          refine ⟨it, List.mem_cons_self _ _, ?_,
            (by rw [Bool.and_eq_true] at hc; exact hc.1)⟩
          rw [List.mem_singleton.mp h2]
          rw [attachChildren_nodeId, root_node_id byId hval]
      · exact Or.inr ⟨z, List.mem_cons_of_mem _ hz, h2, h3⟩
    · rw [if_neg hc] at h
      rcases ih _ n h with h1 | ⟨z, hz, h2, h3⟩
      · exact Or.inl h1
      · exact Or.inr ⟨z, List.mem_cons_of_mem _ hz, h2, h3⟩

theorem rootLoop_complete (items : List ItemView)
    (hnd : ((treeEligible items).map (fun z => z.id)).Nodup) (fuel : Nat) :
    ∀ (l : List ItemView) (acc : List TreeNode × TreeSt),
      (∀ z ∈ l, z ∈ treeEligible items) →
      ((l.map (fun z => z.id)).Nodup) →
      (∀ z ∈ l, isRootB items z = true → z.id ∉ acc.2.visited) →
      ∀ z ∈ l, isRootB items z = true →
        ∃ n ∈ (rootLoop (buildById items)
            (buildChildIds items (buildAllIds items)).1
            (buildAllIds items) fuel acc l).1, n.nodeId = z.id := by
  intro l
  induction l with
  | nil => intro acc _ _ _ z hz; exact absurd hz (List.not_mem_nil z)
  | cons it rest ih =>
    intro acc hsub hndl hinv z hz hzroot
    rw [rootLoop]
    rcases List.mem_cons.mp hz with rfl | hz2
    · have hnvis : acc.2.visited.contains z.id = false := by
        by_cases hcv : acc.2.visited.contains z.id = true
        · exact absurd ((contains_iff_mem _ _).mp hcv)
            (hinv z (List.mem_cons_self _ _) hzroot)
        · simpa using hcv
      have hcond : ((z.parent == "" || !(buildAllIds items).contains z.parent) &&
          !acc.2.visited.contains z.id) = true := by
        rw [Bool.and_eq_true, hnvis]
        exact ⟨hzroot, rfl⟩
      rw [if_pos hcond]
      refine ⟨_, rootLoop_roots_mono _ _ _ fuel rest _ _
        (List.mem_append.mpr (Or.inr (List.mem_singleton.mpr rfl))), ?_⟩
      rw [attachChildren_nodeId, root_node_id (buildById items) (buildById_value_id items)]
    · have hitelig : it ∈ treeEligible items := hsub it (List.mem_cons_self _ _)
      have hsub2 : ∀ w ∈ rest, w ∈ treeEligible items :=
        fun w hw => hsub w (List.mem_cons_of_mem _ hw)
      have hndl2 : ((rest.map (fun w => w.id)).Nodup) := by
        rw [List.map_cons, List.nodup_cons] at hndl
        exact hndl.2
      by_cases hc : ((it.parent == "" || !(buildAllIds items).contains it.parent) &&
          !acc.2.visited.contains it.id) = true
      · rw [if_pos hc]
        refine ih _ hsub2 hndl2 ?_ z hz2 hzroot
        intro w hw hwroot hwvis
        have hsome : (assocFind? (buildById items) it.id).isSome = true :=
          (isSome_buildById items it.id).mpr
            (List.mem_map.mpr ⟨it, hitelig, rfl⟩)
        rcases attachChildren_visited_sub (buildById items)
            (buildChildIds items (buildAllIds items)).1 fuel acc.2 it.id _ hsome
            w.id hwvis with h1 | h1 | h1
        · exact hinv w (List.mem_cons_of_mem _ hw) hwroot h1
        · rw [List.map_cons, List.nodup_cons] at hndl
          exact hndl.1 (h1 ▸ List.mem_map.mpr ⟨w, hw, rfl⟩)
        · obtain ⟨k, hk, hmem⟩ := h1
          have hmem' : w.id ∈ (assocFind? (childLoop (buildAllIds items)
              ([], []) (treeEligible items)).1 k).getD [] := hmem
          rw [childLoop_lookup (treeEligible items) (buildAllIds items)
            ([], []) k w.id] at hmem'
          rcases hmem' with hmem' | ⟨v, hv, hvid, hvp, hkne⟩
          · simp at hmem'
          · have hveq : v = w := nodup_map_inj _ _ hnd v hv w
              (hsub2 w hw) hvid
            have hkelig : k ∈ (treeEligible items).map (fun w => w.id) :=
              (isSome_buildById items k).mp hk
            have : isRootB items w = false := by
              unfold isRootB
              rw [Bool.or_eq_false_iff]
              constructor
              · rw [beq_eq_false_iff_ne]
                rw [← hveq, hvp]
                exact hkne
              · rw [Bool.not_eq_false']
                rw [← hveq, hvp]
                exact (contains_iff_mem _ _).mpr ((mem_buildAllIds items k).mpr hkelig)
            rw [this] at hwroot
            exact Bool.noConfusion hwroot
      · rw [if_neg hc]
        refine ih _ hsub2 hndl2 ?_ z hz2 hzroot
        intro w hw hwroot
        exact hinv w (List.mem_cons_of_mem _ hw) hwroot

/-- C7: a hierarchy-eligible listed item (ids pairwise distinct, as primaries
are) appears as a root of the forest exactly when its parent is empty or not
among the eligible ids, and a non-empty missing parent additionally emits the
orphan warning — the orphan is promoted to a root, not dropped. -/
theorem tree_root_iff (items : List ItemView)
    (hnd : ((treeEligible items).map (fun z => z.id)).Nodup)
    (it : ItemView) (hmem : it ∈ treeEligible items) :
    ((∃ n ∈ (BuildTreeCore items).1, n.nodeId = it.id) ↔
      (it.parent = "" ∨ it.parent ∉ (treeEligible items).map (fun z => z.id))) ∧
    (it.parent ≠ "" → it.parent ∉ (treeEligible items).map (fun z => z.id) →
      ("Orphan parent missing for item " ++ it.id ++ ": " ++ it.parent) ∈
        (BuildTreeCore items).2) := by
  constructor
  · constructor
    · rintro ⟨n, hn, hid⟩
      have hn' : n ∈ (rootLoop (buildById items)
          (buildChildIds items (buildAllIds items)).1 (buildAllIds items)
          (items.length + 1)
          ([], { warnings := (buildChildIds items (buildAllIds items)).2 })
          (treeEligible items)).1 := hn
      rcases rootLoop_roots_from _ _ _ _ (buildById_value_id items) _ _ n hn' with
        h1 | ⟨z, hz, h2, h3⟩
      · simp at h1
      · have hzit : z = it := nodup_map_inj _ _ hnd z hz it hmem (by rw [h2, hid])
        subst hzit
        exact (isRootB_iff items z).mp h3
    · intro hroot
      obtain ⟨n, hn, hid⟩ := rootLoop_complete items hnd (items.length + 1)
        (treeEligible items)
        ([], { warnings := (buildChildIds items (buildAllIds items)).2 })
        (fun z hz => hz) hnd (fun z _ _ hcon => by simp at hcon)
        it hmem ((isRootB_iff items it).mpr hroot)
      exact ⟨n, hn, hid⟩
  · intro hp hnotin
    have hcont : ((buildAllIds items).contains it.parent) = false := by
      by_cases hc : ((buildAllIds items).contains it.parent) = true
      · exact absurd ((mem_buildAllIds items it.parent).mp
          ((contains_iff_mem _ _).mp hc)) hnotin
      · simpa using hc
    have hwarn := childLoop_orphan_warning (treeEligible items)
      (buildAllIds items) ([], []) it hmem hp hcont
    exact rootLoop_warnings_mono (buildById items)
      (buildChildIds items (buildAllIds items)).1 (buildAllIds items)
      (items.length + 1) (treeEligible items)
      ([], { warnings := (buildChildIds items (buildAllIds items)).2 }) _ hwarn

/-- Concrete item list for the C7 witness: one eligible item whose parent id
does not exist. -/
def orphanItems : List ItemView :=
  [{ id := "A", type := "Task", sourceKind := "Item", title := "a"
     state := "Proposed", parent := "MISSING", valid := true }]

/-- Witness for C7: the orphan item is promoted to a root and the orphan
warning is emitted. -/
theorem tree_root_iff_witness :
    (∃ n ∈ (BuildTreeCore orphanItems).1, n.nodeId = "A") ∧
    ("Orphan parent missing for item " ++ "A" ++ ": " ++ "MISSING") ∈
      (BuildTreeCore orphanItems).2 := by
  have h := tree_root_iff orphanItems (by decide)
    { id := "A", type := "Task", sourceKind := "Item", title := "a"
      state := "Proposed", parent := "MISSING", valid := true } (by decide)
  exact ⟨h.1.mpr (Or.inr (by decide)), h.2 (by decide) (by decide)⟩

end KanoBacklog
